import Mathlib

/-!
Verification development for the `obsidian-s3-attachments` repository.

The TypeScript sources are shallowly embedded here:
* document text and all strings are `List Char`;
* external collaborators (the vault, the link resolver, the S3 client and
  the MIME/method configuration table) are packaged as an `Env` of pure
  oracle functions, and fallible calls return `Except`;
* the orchestrator `convertAttachments` is a pure fold over notes that
  threads a report, an event log (one event per external call it makes)
  and the run-scoped `resolvedUrlByVaultPath` cache.
-/

namespace S3Conv

/-- Document text / JS strings are modelled as lists of characters. -/
abbrev Str := List Char

/-- ASCII approximation of the JavaScript whitespace class used by
`String.prototype.trim`. -/
def wsChar (c : Char) : Bool :=
  c = ' ' || c = '\t' || c = '\n' || c = '\r' || c = '\x0b' || c = '\x0c'

/-- Remove trailing whitespace (the right half of JS `trim`). -/
def trimRight : Str → Str
  | [] => []
  | c :: rest =>
    let r := trimRight rest
    if r = [] && wsChar c then [] else c :: r

/-- JS `String.prototype.trim`: strip whitespace from both ends. -/
def trimStr (s : Str) : Str :=
  trimRight (s.dropWhile wsChar)

/-- JS `String.prototype.startsWith`: first argument is the prefix pattern. -/
def startsWithStr : Str → Str → Bool
  | [], _ => true
  | _ :: _, [] => false
  | p :: ps, c :: cs => p = c && startsWithStr ps cs

/-! ### Replacement spans and the patch applier

Embeds the `Replacement` interface and the splice loop of
`convertAttachments` (sort descending by `start`, then
`next = next.slice(0, r.start) + r.newText + next.slice(r.end)`).
The source field `end` is a Lean keyword and is called `stop` here. -/

structure Replacement where
  start : Nat
  stop : Nat
  newText : Str
deriving DecidableEq, Repr

/-- Descending-by-`start` order used by `replacements.sort((a, b) => b.start - a.start)`. -/
def replDescLe (a b : Replacement) : Prop := b.start ≤ a.start

instance : DecidableRel replDescLe := fun a b => Nat.decLe b.start a.start

instance : IsTotal Replacement replDescLe :=
  ⟨fun a b => Nat.le_total b.start a.start⟩

instance : IsTrans Replacement replDescLe :=
  ⟨fun _ _ _ hab hbc => Nat.le_trans hbc hab⟩

/-- One splice step: `next.slice(0, r.start) + r.newText + next.slice(r.end)`. -/
def applyOne (next : Str) (r : Replacement) : Str :=
  next.take r.start ++ r.newText ++ next.drop r.stop

/-- The patch application of `convertAttachments`: sort the collected
replacements in descending order of `start`, then splice from the end of the
document toward the beginning. -/
def applyReplacements (content : Str) (repls : List Replacement) : Str :=
  (List.insertionSort replDescLe repls).foldl applyOne content

/-- Modelled from the spec (Patch Applier contract): the patched text is the
original text with each span's slice replaced by its `newText` and all text
between and around the spans kept verbatim; `pos` is the cursor into the
original text, and the spans are listed in ascending order of `start`. -/
def patchSpec (content : Str) (pos : Nat) : List Replacement → Str
  | [] => content.drop pos
  | r :: rest =>
    (content.drop pos).take (r.start - pos) ++ r.newText ++ patchSpec content r.stop rest

/-- Taking up to a position `m` that lies before every span start just reads
the original text. -/
theorem take_patchSpec (content : Str) (rest : List Replacement) (p m : Nat)
    (hpm : p ≤ m) (hm : m ≤ content.length)
    (hrest : ∀ s ∈ rest, m ≤ s.start) :
    (patchSpec content p rest).take (m - p) = (content.drop p).take (m - p) := by
  cases rest with
  | nil => rfl
  | cons s rest =>
    have hs : m ≤ s.start := hrest s (List.mem_cons_self _ _)
    have hlen : m - p ≤ ((content.drop p).take (s.start - p)).length := by
      simp only [List.length_take, List.length_drop]
      omega
    rw [patchSpec, List.append_assoc, List.take_append_of_le_length hlen, List.take_take]
    congr 1
    omega

/-- Dropping up to a position `q` that lies before every span start moves the
cursor of `patchSpec` forward. -/
theorem drop_patchSpec (content : Str) (rest : List Replacement) (p q : Nat)
    (hpq : p ≤ q) (hq : q ≤ content.length)
    (hrest : ∀ s ∈ rest, q ≤ s.start ∧ s.start ≤ content.length) :
    (patchSpec content p rest).drop (q - p) = patchSpec content q rest := by
  cases rest with
  | nil =>
    simp only [patchSpec, List.drop_drop]
    congr 1
    omega
  | cons s rest =>
    have hs : q ≤ s.start ∧ s.start ≤ content.length :=
      hrest s (List.mem_cons_self _ _)
    have hlen : q - p ≤ ((content.drop p).take (s.start - p)).length := by
      simp only [List.length_take, List.length_drop]
      omega
    rw [patchSpec, List.append_assoc, List.drop_append_of_le_length hlen,
      List.drop_take, List.drop_drop, patchSpec, List.append_assoc]
    have e1 : s.start - p - (q - p) = s.start - q := by omega
    have e2 : p + (q - p) = q := by omega
    rw [e1, e2]

/-- Core correctness of end-to-start splicing: folding `applyOne` from the
highest span down over an ascending, non-overlapping, in-bounds span list
produces exactly the spec's patched shape. -/
theorem foldr_applyOne_eq_patchSpec (content : Str) :
    ∀ asc : List Replacement,
      (∀ r ∈ asc, r.start ≤ r.stop ∧ r.stop ≤ content.length) →
      asc.Pairwise (fun a b => a.stop ≤ b.start) →
      asc.foldr (fun r acc => applyOne acc r) content = patchSpec content 0 asc := by
  intro asc
  induction asc with
  | nil => intro _ _; rfl
  | cons r rest ih =>
    intro hb hp
    have hrb : r.start ≤ r.stop ∧ r.stop ≤ content.length :=
      hb r (List.mem_cons_self _ _)
    have hrestb : ∀ s ∈ rest, s.start ≤ s.stop ∧ s.stop ≤ content.length :=
      fun s hs => hb s (List.mem_cons_of_mem _ hs)
    have hhead : ∀ s ∈ rest, r.stop ≤ s.start := (List.pairwise_cons.mp hp).1
    have htail : rest.Pairwise (fun a b => a.stop ≤ b.start) :=
      (List.pairwise_cons.mp hp).2
    have hX : rest.foldr (fun r acc => applyOne acc r) content = patchSpec content 0 rest :=
      ih hrestb htail
    show applyOne (rest.foldr (fun r acc => applyOne acc r) content) r = _
    rw [hX]
    unfold applyOne
    have htake : (patchSpec content 0 rest).take r.start = (content.drop 0).take r.start := by
      have := take_patchSpec content rest 0 r.start (Nat.zero_le _) (le_trans hrb.1 hrb.2)
        (fun s hs => le_trans hrb.1 (hhead s hs))
      simpa using this
    have hdrop : (patchSpec content 0 rest).drop r.stop = patchSpec content r.stop rest := by
      have := drop_patchSpec content rest 0 r.stop (Nat.zero_le _) hrb.2
        (fun s hs => ⟨hhead s hs, le_trans (hrestb s hs).1 (hrestb s hs).2⟩)
      simpa using this
    rw [htake, hdrop]
    simp [patchSpec]

/-- Length of the patched shape: original length plus the signed size change
of each span. -/
theorem length_patchSpec (content : Str) :
    ∀ (asc : List Replacement) (p : Nat),
      p ≤ content.length →
      (∀ r ∈ asc, p ≤ r.start ∧ r.start ≤ r.stop ∧ r.stop ≤ content.length) →
      asc.Pairwise (fun a b => a.stop ≤ b.start) →
      ((patchSpec content p asc).length : Int) =
        (content.length - p : Int) +
          (asc.map (fun r => (r.newText.length : Int) - ((r.stop : Int) - r.start))).sum := by
  intro asc
  induction asc with
  | nil =>
    intro p hp _ _
    simp [patchSpec]
    omega
  | cons r rest ih =>
    intro p hp hb hpw
    have hrb := hb r (List.mem_cons_self _ _)
    have hrestb : ∀ s ∈ rest, r.stop ≤ s.start ∧ s.start ≤ s.stop ∧ s.stop ≤ content.length :=
      fun s hs => ⟨(List.pairwise_cons.mp hpw).1 s hs, (hb s (List.mem_cons_of_mem _ hs)).2⟩
    have htail := (List.pairwise_cons.mp hpw).2
    have hrec := ih r.stop hrb.2.2 (fun s hs => ⟨(hrestb s hs).1, (hrestb s hs).2⟩) htail
    simp only [patchSpec, List.length_append, List.length_take, List.length_drop,
      List.map_cons, List.sum_cons]
    have h1 : min (r.start - p) (content.length - p) = r.start - p := by omega
    rw [h1]
    push_cast
    rw [hrec]
    omega

instance : IsAntisymm Replacement (fun a b => a.start < b.start) :=
  ⟨fun _ _ h1 h2 => absurd (Nat.lt_trans h1 h2) (Nat.lt_irrefl _)⟩

/-- Claim C1 (patch application span safety): for every document text and
every list of non-overlapping, in-bounds, non-empty replacement spans in any
discovery order, `applyReplacements` (which sorts in descending order of
`start` and splices end-to-start) returns exactly the spec's patched shape
listed along the ascending ordering `asc` of the spans — so every character
outside the replaced spans is unchanged and each span's slice is replaced by
its `newText` — and the output length is the original length plus the sum
over spans of `newText.length - (stop - start)`. -/
theorem C1_patch_span_safety (content : Str) (rs asc : List Replacement)
    (hb : ∀ r ∈ rs, r.start < r.stop ∧ r.stop ≤ content.length)
    (hdisj : rs.Pairwise (fun a b => a.stop ≤ b.start ∨ b.stop ≤ a.start))
    (hperm : asc.Perm rs)
    (hsort : asc.Pairwise (fun a b => a.start < b.start)) :
    applyReplacements content rs = patchSpec content 0 asc ∧
    ((applyReplacements content rs).length : Int) =
      (content.length : Int) +
        (rs.map (fun r => (r.newText.length : Int) - ((r.stop : Int) - r.start))).sum := by
  have hds_perm : (List.insertionSort replDescLe rs).Perm rs :=
    List.perm_insertionSort replDescLe rs
  have hds_sorted : List.Sorted replDescLe (List.insertionSort replDescLe rs) :=
    List.sorted_insertionSort replDescLe rs
  have hbds : ∀ r ∈ List.insertionSort replDescLe rs,
      r.start < r.stop ∧ r.stop ≤ content.length :=
    fun r hr => hb r (hds_perm.subset hr)
  have hdisjds : (List.insertionSort replDescLe rs).Pairwise
      (fun a b => a.stop ≤ b.start ∨ b.stop ≤ a.start) :=
    (List.Perm.pairwise_iff (fun h => h.symm) hds_perm).mpr hdisj
  have key : (List.insertionSort replDescLe rs).Pairwise (fun a b => b.stop ≤ a.start) := by
    rw [List.pairwise_iff_forall_sublist]
    intro a b hsub
    have h1 := List.pairwise_iff_forall_sublist.mp hds_sorted hsub
    have h2 := List.pairwise_iff_forall_sublist.mp hdisjds hsub
    have ha := hbds a (hsub.subset (by simp))
    have hb2 := hbds b (hsub.subset (by simp))
    unfold replDescLe at h1
    rcases h2 with h2 | h2
    · omega
    · exact h2
  have hascpw : (List.insertionSort replDescLe rs).reverse.Pairwise
      (fun a b => a.stop ≤ b.start) :=
    List.pairwise_reverse.mpr key
  have hascb : ∀ r ∈ (List.insertionSort replDescLe rs).reverse,
      r.start ≤ r.stop ∧ r.stop ≤ content.length := by
    intro r hr
    have := hbds r (List.mem_reverse.mp hr)
    omega
  have hfold : applyReplacements content rs =
      patchSpec content 0 (List.insertionSort replDescLe rs).reverse := by
    unfold applyReplacements
    rw [← foldr_applyOne_eq_patchSpec content _ hascb hascpw, List.foldr_reverse]
  have hascsorted : (List.insertionSort replDescLe rs).reverse.Pairwise
      (fun a b => a.start < b.start) := by
    rw [List.pairwise_iff_forall_sublist]
    intro a b hsub
    have h1 := List.pairwise_iff_forall_sublist.mp hascpw hsub
    have ha := hbds a (List.mem_reverse.mp (hsub.subset (by simp)))
    omega
  have hasceq : (List.insertionSort replDescLe rs).reverse = asc := by
    refine List.eq_of_perm_of_sorted ?_ hascsorted hsort
    exact ((List.insertionSort replDescLe rs).reverse_perm.trans hds_perm).trans hperm.symm
  have hshape : applyReplacements content rs = patchSpec content 0 asc := by
    rw [hfold, hasceq]
  refine ⟨hshape, ?_⟩
  rw [hshape]
  have hascb2 : ∀ r ∈ asc, 0 ≤ r.start ∧ r.start ≤ r.stop ∧ r.stop ≤ content.length := by
    intro r hr
    have := hb r (hperm.subset hr)
    omega
  have hascpw2 : asc.Pairwise (fun a b => a.stop ≤ b.start) := by
    rw [← hasceq]; exact hascpw
  have hlen := length_patchSpec content asc 0 (Nat.zero_le _) hascb2 hascpw2
  rw [hlen]
  have hsum : (asc.map (fun r => (r.newText.length : Int) - ((r.stop : Int) - r.start))).sum =
      (rs.map (fun r => (r.newText.length : Int) - ((r.stop : Int) - r.start))).sum :=
    (hperm.map _).sum_eq
  rw [hsum]
  omega

/-- Witness for C1 at a concrete input: content "abcdef", spans `[4,5)↦"YZ"`
and `[1,3)↦"X"` given in scrambled order. -/
theorem C1_patch_span_safety_witness :
    applyReplacements "abcdef".toList
        [⟨4, 5, "YZ".toList⟩, ⟨1, 3, "X".toList⟩] =
      patchSpec "abcdef".toList 0 [⟨1, 3, "X".toList⟩, ⟨4, 5, "YZ".toList⟩] ∧
    ((applyReplacements "abcdef".toList
        [⟨4, 5, "YZ".toList⟩, ⟨1, 3, "X".toList⟩]).length : Int) =
      ("abcdef".toList.length : Int) +
        (([⟨4, 5, "YZ".toList⟩, ⟨1, 3, "X".toList⟩] : List Replacement).map
          (fun r => (r.newText.length : Int) - ((r.stop : Int) - r.start))).sum :=
  C1_patch_span_safety "abcdef".toList
    [⟨4, 5, "YZ".toList⟩, ⟨1, 3, "X".toList⟩]
    [⟨1, 3, "X".toList⟩, ⟨4, 5, "YZ".toList⟩]
    (by decide) (by decide) (by decide) (by decide)

/-! ### helper.ts -/

/-- JS `String.prototype.split` on a single-character separator. -/
def splitOnChar (c : Char) : Str → List Str
  | [] => [[]]
  | x :: rest =>
    if x = c then [] :: splitOnChar c rest
    else
      match splitOnChar c rest with
      | [] => [[x]]
      | seg :: segs => (x :: seg) :: segs

/-- Decimal rendering of a natural number (for the `Date.now()` branch). -/
def natToStr (n : Nat) : Str := (toString n).toList

/-- `generateResourceName` from helper.ts.  `const [name, type] =
fileName.split('.')` binds `name` to the first dot-separated segment and
`type` to the second (later segments are dropped; a missing second segment
is JS `undefined` and stringifies as "undefined").  `Date.now()` is passed
in as `now`. -/
def generateResourceName (fileName : Str) (parent : Option Str) (hash : Option Str)
    (now : Nat) : Str :=
  let parts := splitOnChar '.' fileName
  let name := parts.headD []
  let type := (parts.drop 1).headD "undefined".toList
  match hash with
  | some h =>
    if h.isEmpty then
      (match parent with
       | some p => if p.isEmpty then [] else p ++ ['-']
       | none => []) ++ name ++ ('-' :: natToStr now) ++ ('.' :: type)
    else
      name ++ ('-' :: h) ++ ('.' :: type)
  | none =>
    (match parent with
     | some p => if p.isEmpty then [] else p ++ ['-']
     | none => []) ++ name ++ ('-' :: natToStr now) ++ ('.' :: type)

/-- Claim C9 (multi-dot filenames): when the file name splits on '.' into at
least three segments and the hash is non-empty, the generated object name is
the first segment, a hyphen, the hash, a dot, and only the second segment —
all later segments (including the file's real extension) are dropped. -/
theorem C9_multidot_resource_name (fileName hash p0 p1 p2 : Str) (rest : List Str)
    (now : Nat)
    (hsplit : splitOnChar '.' fileName = p0 :: p1 :: p2 :: rest)
    (hh : hash ≠ []) :
    generateResourceName fileName none (some hash) now = p0 ++ ('-' :: hash) ++ ('.' :: p1) := by
  unfold generateResourceName
  rw [hsplit]
  have : hash.isEmpty = false := by
    cases hash with
    | nil => exact absurd rfl hh
    | cons c cs => rfl
  simp [this]

/-- Witness for C9: `archive.tar.gz` with hash `h` becomes `archive-h.tar`,
not `archive.tar-h.gz`. -/
theorem C9_multidot_resource_name_witness :
    generateResourceName "archive.tar.gz".toList none (some "h".toList) 0 =
      "archive".toList ++ ('-' :: "h".toList) ++ ('.' :: "tar".toList) :=
  C9_multidot_resource_name "archive.tar.gz".toList "h".toList
    "archive".toList "tar".toList "gz".toList [] 0 (by decide) (by decide)

/-! ### Trim lemmas -/

theorem trimRight_eq_nil_iff (s : Str) :
    trimRight s = [] ↔ ∀ c ∈ s, wsChar c = true := by
  induction s with
  | nil => simp [trimRight]
  | cons c rest ih =>
    unfold trimRight
    by_cases hr : trimRight rest = []
    · by_cases hc : wsChar c = true
      · simp [hr, hc]
        exact ih.mp hr
      · simp only [hr, hc]
        simp [hc]
    · have : ∃ d ∈ rest, wsChar d = false := by
        by_contra hall
        push_neg at hall
        exact hr (ih.mpr (fun d hd => by
          have := hall d hd
          revert this
          cases wsChar d <;> simp))
      obtain ⟨d, hd, hdw⟩ := this
      simp only [hr]
      constructor
      · intro h
        exact absurd h (by simp)
      · intro h
        exact absurd (h d (List.mem_cons_of_mem _ hd)) (by simp [hdw])

theorem trimStr_eq_nil_iff (s : Str) :
    trimStr s = [] ↔ ∀ c ∈ s, wsChar c = true := by
  unfold trimStr
  rw [trimRight_eq_nil_iff]
  constructor
  · intro h c hc
    by_cases hcw : wsChar c = true
    · exact hcw
    · exfalso
      have hsplit : s = s.takeWhile wsChar ++ s.dropWhile wsChar :=
        (List.takeWhile_append_dropWhile (p := wsChar) (l := s)).symm
      rw [hsplit] at hc
      rcases List.mem_append.mp hc with h1 | h1
      · exact hcw (List.mem_takeWhile_imp h1)
      · exact hcw (h c h1)
  · intro h c hc
    exact h c ((List.dropWhile_sublist _).subset hc)

theorem startsWithStr_iff (p t : Str) :
    startsWithStr p t = true ↔ ∃ r, t = p ++ r := by
  induction p generalizing t with
  | nil => simp [startsWithStr]
  | cons x ps ih =>
    cases t with
    | nil => simp [startsWithStr]
    | cons c cs =>
      simp only [startsWithStr, Bool.and_eq_true, decide_eq_true_eq, ih]
      constructor
      · rintro ⟨rfl, r, rfl⟩
        exact ⟨r, rfl⟩
      · rintro ⟨r, h⟩
        cases h
        exact ⟨rfl, r, rfl⟩

theorem trimRight_append_of_nonWs (p : Str) (hp : ∀ c ∈ p, wsChar c = false) :
    ∀ r, ∃ r2, trimRight (p ++ r) = p ++ r2 := by
  induction p with
  | nil => intro r; exact ⟨trimRight r, rfl⟩
  | cons c ps ih =>
    intro r
    obtain ⟨r2, hr2⟩ := ih (fun d hd => hp d (List.mem_cons_of_mem _ hd)) r
    refine ⟨r2, ?_⟩
    show trimRight (c :: (ps ++ r)) = c :: (ps ++ r2)
    unfold trimRight
    rw [hr2]
    simp [hp c (List.mem_cons_self _ _)]

/-- A non-whitespace prefix survives JS `trim`. -/
theorem startsWith_trimStr (p t : Str) (hp : ∀ c ∈ p, wsChar c = false)
    (h : startsWithStr p t = true) : startsWithStr p (trimStr t) = true := by
  obtain ⟨r, rfl⟩ := (startsWithStr_iff p t).mp h
  cases p with
  | nil => simp [startsWithStr]
  | cons c ps =>
    have hcns : wsChar c = false := hp c (List.mem_cons_self _ _)
    have hdw : List.dropWhile wsChar ((c :: ps) ++ r) = (c :: ps) ++ r := by
      rw [List.cons_append, List.dropWhile_cons]
      simp [hcns]
    unfold trimStr
    rw [hdw]
    obtain ⟨r2, hr2⟩ := trimRight_append_of_nonWs (c :: ps) hp r
    rw [hr2, startsWithStr_iff]
    exact ⟨r2, rfl⟩

/-! ### Target classifier -/

/-- `isProbablyRemoteLink` from convertAttachments. -/
def isProbablyRemoteLink (target : Str) : Bool :=
  let t := trimStr target
  startsWithStr "http://".toList t || startsWithStr "https://".toList t ||
    startsWithStr "data:".toList t || startsWithStr "mailto:".toList t ||
    startsWithStr "file:".toList t

/-- `extractExtFromTarget`: strip fragment/query, trim, take the last path
segment, and return the lowercased text after its last dot. -/
def extractExtFromTarget (target : Str) : Option Str :=
  let t := trimStr ((target.takeWhile (· ≠ '#')).takeWhile (· ≠ '?'))
  if t.isEmpty then none
  else
    let last := (t.reverse.takeWhile (· ≠ '/')).reverse
    if '.' ∈ last then
      let ext := (last.reverse.takeWhile (· ≠ '.')).reverse.map Char.toLower
      if ext.isEmpty then none else some ext
    else none

/-- `isAttachmentCandidate`, parameterised by the configured
`mimeType.includeEXT` table (that table lives outside these sources). -/
def isAttachmentCandidate (includeEXT : Str → Bool) (target : Str) : Bool :=
  match extractExtFromTarget target with
  | none => false
  | some ext => if ext = "md".toList then false else includeEXT ext

/-- The orchestrator's guard `if (!ref.target || ref.target.trim() === "")`. -/
def emptyTargetGuard (t : Str) : Bool :=
  t.isEmpty || (trimStr t).isEmpty

/-- Claim C5 (classifier correctness): `isAttachmentCandidate` accepts a
target iff an extension is extracted from it, that extension is not the note
extension `md`, and it is in the configured supported-extension set; it
rejects all other targets (no extension, `md`, or unsupported). -/
theorem C5_classifier_correctness (includeEXT : Str → Bool) (target : Str) :
    isAttachmentCandidate includeEXT target = true ↔
      ∃ ext, extractExtFromTarget target = some ext ∧ ext ≠ "md".toList ∧
        includeEXT ext = true := by
  unfold isAttachmentCandidate
  cases h : extractExtFromTarget target with
  | none => simp
  | some ext =>
    by_cases hmd : ext = "md".toList
    · simp [hmd]
    · simp [hmd]

/-- Claim C10 (empty-target branch unreachable): a target accepted by
`isAttachmentCandidate` is non-empty and not whitespace-only, so the
orchestrator's skip guard for empty targets never fires on the
candidate-filtered reference list. -/
theorem C10_empty_target_guard_unreachable (includeEXT : Str → Bool) (target : Str)
    (hc : isAttachmentCandidate includeEXT target = true) :
    emptyTargetGuard target = false := by
  obtain ⟨ext, hext, -, -⟩ := (C5_classifier_correctness includeEXT target).mp hc
  have htne : ¬ ∀ c ∈ (target.takeWhile (· ≠ '#')).takeWhile (· ≠ '?'), wsChar c = true := by
    intro hall
    have he : trimStr ((target.takeWhile (· ≠ '#')).takeWhile (· ≠ '?')) = [] :=
      (trimStr_eq_nil_iff _).mpr hall
    simp only [extractExtFromTarget] at hext
    rw [he] at hext
    simp at hext
  push_neg at htne
  obtain ⟨c, hcmem, hcw⟩ := htne
  have hcw2 : wsChar c = false := by
    revert hcw
    cases wsChar c <;> simp
  have hctarget : c ∈ target :=
    (List.takeWhile_sublist _).subset ((List.takeWhile_sublist _).subset hcmem)
  unfold emptyTargetGuard
  have h1 : target.isEmpty = false := by
    cases target with
    | nil => cases hctarget
    | cons _ _ => rfl
  have h2 : (trimStr target).isEmpty = false := by
    cases htr : trimStr target with
    | nil =>
      exfalso
      rw [trimStr_eq_nil_iff] at htr
      rw [htr c hctarget] at hcw2
      cases hcw2
    | cons _ _ => rfl
  rw [h1, h2]
  rfl

/-- Witness for C10 at the concrete target `a.png` with a configuration that
supports `png`. -/
theorem C10_empty_target_guard_unreachable_witness :
    emptyTargetGuard "a.png".toList = false :=
  C10_empty_target_guard_unreachable (fun e => e = "png".toList) "a.png".toList (by decide)

/-! ### Reference scanner

Embeds the four regex passes of `extractAttachmentRefs`.  Each JS regex is
deterministic on its character classes, so its `exec` loop is modelled as a
left-to-right scan: try to match at the current position, emit the match and
jump past it, or advance one character.  Negative lookbehind `(?<!!)` is
modelled by threading the previous character. -/

inductive RefKind
  | obsidianEmbed
  | obsidianLink
  | mdEmbed
  | mdLink
deriving DecidableEq, Repr

structure AttachmentRef where
  kind : RefKind
  start : Nat
  stop : Nat
  raw : Str
  target : Str
  label : Option Str
  suffix : Option Str
deriving DecidableEq, Repr

/-- `parseObsidianLinkTarget`: split on the first `|` into
`linkpath | label`, then strip `#heading` / `^block` parts from the linkpath. -/
def parseObsidianLinkTarget (inner : Str) : Str × Option Str :=
  let lp0 := trimStr inner
  let pair :=
    if '|' ∈ lp0 then
      let lab := trimStr ((lp0.dropWhile (· ≠ '|')).drop 1)
      (trimStr (lp0.takeWhile (· ≠ '|')), if lab.isEmpty then none else some lab)
    else (lp0, (none : Option Str))
  (trimStr ((pair.1.takeWhile (· ≠ '#')).takeWhile (· ≠ '^')), pair.2)

/-- Inside the quoted title of the regex `(".*"|'.*')\s*$`: can the body
close with quote `q` followed only by whitespace?  Inner characters may be
anything the JS regex `.` matches. -/
def jsDotNoMatch (c : Char) : Bool :=
  c = '\n' || c = '\r' || c = '\u2028' || c = '\u2029'

/-- Close the quoted title body with quote `q` followed only by whitespace. -/
def hasGoodClose (q : Char) : Str → Bool
  | [] => false
  | x :: rest => (x = q && rest.all wsChar) || (!jsDotNoMatch x && hasGoodClose q rest)

/-- The tail `\s+(".*"|'.*')\s*$` of the title-stripping regex, applied at a
candidate split point. -/
def titleTailMatches (rest : Str) : Bool :=
  !(rest.takeWhile wsChar).isEmpty &&
    (match rest.dropWhile wsChar with
     | '"' :: body => hasGoodClose '"' body
     | '\'' :: body => hasGoodClose '\'' body
     | _ => false)

/-- Lazy capture group `(.*?)` of the title-stripping regex
`^(.*?)(?:\s+(".*"|'.*'))\s*$`: the minimal newline-free prefix whose tail
matches; `none` when the regex does not match at all. -/
def titleSplitAux : Str → Str → Option Str
  | acc, rest =>
    if titleTailMatches rest then some acc.reverse
    else
      match rest with
      | [] => none
      | x :: xs => if jsDotNoMatch x then none else titleSplitAux (x :: acc) xs

def titleSplit (d : Str) : Option Str := titleSplitAux [] d

/-- `parseMarkdownDest`: handle `<...>` wrapping or strip a trailing quoted
title, then split off a trailing `#...`/`?...` fragment/query suffix
(regex `^([^#?]+)([?#].+)?$`). -/
def parseMarkdownDest (destRaw : Str) : Str × Option Str :=
  let d0 := trimStr destRaw
  let d1 :=
    match d0 with
    | '<' :: rest => if '>' ∈ rest then rest.takeWhile (· ≠ '>') else d0
    | _ =>
      match titleSplit d0 with
      | some pre => if pre.isEmpty then d0 else pre
      | none => d0
  let core := d1.takeWhile (fun c => c ≠ '#' && c ≠ '?')
  if core.isEmpty then (d1, none)
  else
    match d1.dropWhile (fun c => c ≠ '#' && c ≠ '?') with
    | [] => (d1, none)
    | c :: tail =>
      if !tail.isEmpty && tail.all (fun c => !jsDotNoMatch c) then (core, some (c :: tail))
      else (d1, none)

/-- Inner part of the wiki regexes `([^\]]+?)\]\]`: a non-empty run of
non-`]` characters followed by `]]`. -/
def matchWikiInner (rest : Str) : Option Str :=
  let inner := rest.takeWhile (· ≠ ']')
  match rest.dropWhile (· ≠ ']') with
  | ']' :: ']' :: _ => if inner.isEmpty then none else some inner
  | _ => none

/-- Tail of the markdown regexes after the opening `[`:
`([^\]]*)\]\(([^)]+)\)`.  Returns `(alt, destRaw, consumed length)`. -/
def matchMdTail (rest : Str) : Option (Str × Str × Nat) :=
  let alt := rest.takeWhile (· ≠ ']')
  match rest.dropWhile (· ≠ ']') with
  | ']' :: '(' :: rest2 =>
    let dest := rest2.takeWhile (· ≠ ')')
    if dest.isEmpty then none
    else
      match rest2.dropWhile (· ≠ ')') with
      | ')' :: _ => some (alt, dest, alt.length + 2 + dest.length + 1)
      | _ => none
  | _ => none

/-- Scan for Obsidian embeds `!\[\[([^\]]+?)\]\]`. -/
def scanWikiEmbedAux : Nat → Nat → Str → List AttachmentRef
  | 0, _, _ => []
  | _ + 1, _, [] => []
  | fuel + 1, pos, '!' :: '[' :: '[' :: r =>
    match matchWikiInner r with
    | some inner =>
      let len := inner.length + 5
      let parsed := parseObsidianLinkTarget inner
      { kind := .obsidianEmbed, start := pos, stop := pos + len,
        raw := ('!' :: '[' :: '[' :: r).take len, target := parsed.1,
        label := parsed.2, suffix := none } ::
        scanWikiEmbedAux fuel (pos + len) (('!' :: '[' :: '[' :: r).drop len)
    | none => scanWikiEmbedAux fuel (pos + 1) ('[' :: '[' :: r)
  | fuel + 1, pos, _ :: rest => scanWikiEmbedAux fuel (pos + 1) rest

/-- Scan for Obsidian links `(?<!!)\[\[([^\]]+?)\]\]`. -/
def scanWikiLinkAux : Nat → Nat → Option Char → Str → List AttachmentRef
  | 0, _, _, _ => []
  | _ + 1, _, _, [] => []
  | fuel + 1, pos, prev, '[' :: '[' :: r =>
    if prev = some '!' then scanWikiLinkAux fuel (pos + 1) (some '[') ('[' :: r)
    else
      match matchWikiInner r with
      | some inner =>
        let len := inner.length + 4
        let parsed := parseObsidianLinkTarget inner
        { kind := .obsidianLink, start := pos, stop := pos + len,
          raw := ('[' :: '[' :: r).take len, target := parsed.1,
          label := parsed.2, suffix := none } ::
          scanWikiLinkAux fuel (pos + len) (('[' :: '[' :: r)[len - 1]?)
            (('[' :: '[' :: r).drop len)
      | none => scanWikiLinkAux fuel (pos + 1) (some '[') ('[' :: r)
  | fuel + 1, pos, _, c :: rest => scanWikiLinkAux fuel (pos + 1) (some c) rest

/-- Scan for markdown image embeds `!\[([^\]]*)\]\(([^)]+)\)`. -/
def scanMdEmbedAux : Nat → Nat → Str → List AttachmentRef
  | 0, _, _ => []
  | _ + 1, _, [] => []
  | fuel + 1, pos, '!' :: '[' :: r =>
    match matchMdTail r with
    | some (alt, destRaw, tailLen) =>
      let len := 2 + tailLen
      let parsed := parseMarkdownDest destRaw
      { kind := .mdEmbed, start := pos, stop := pos + len,
        raw := ('!' :: '[' :: r).take len, target := parsed.1,
        label := some alt, suffix := parsed.2 } ::
        scanMdEmbedAux fuel (pos + len) (('!' :: '[' :: r).drop len)
    | none => scanMdEmbedAux fuel (pos + 1) ('[' :: r)
  | fuel + 1, pos, _ :: rest => scanMdEmbedAux fuel (pos + 1) rest

/-- Scan for markdown links `(?<!!)\[([^\]]*)\]\(([^)]+)\)`. -/
def scanMdLinkAux : Nat → Nat → Option Char → Str → List AttachmentRef
  | 0, _, _, _ => []
  | _ + 1, _, _, [] => []
  | fuel + 1, pos, prev, '[' :: r =>
    if prev = some '!' then scanMdLinkAux fuel (pos + 1) (some '[') r
    else
      match matchMdTail r with
      | some (text, destRaw, tailLen) =>
        let len := 1 + tailLen
        let parsed := parseMarkdownDest destRaw
        { kind := .mdLink, start := pos, stop := pos + len,
          raw := ('[' :: r).take len, target := parsed.1,
          label := some text, suffix := parsed.2 } ::
          scanMdLinkAux fuel (pos + len) (('[' :: r)[len - 1]?) (('[' :: r).drop len)
      | none => scanMdLinkAux fuel (pos + 1) (some '[') r
  | fuel + 1, pos, _, c :: rest => scanMdLinkAux fuel (pos + 1) (some c) rest

def scanWikiEmbeds (content : Str) : List AttachmentRef :=
  scanWikiEmbedAux content.length 0 content

def scanWikiLinks (content : Str) : List AttachmentRef :=
  scanWikiLinkAux content.length 0 none content

def scanMdEmbeds (content : Str) : List AttachmentRef :=
  scanMdEmbedAux content.length 0 content

def scanMdLinks (content : Str) : List AttachmentRef :=
  scanMdLinkAux content.length 0 none content

/-- Ascending-by-`start` order used by `refs.sort((a, b) => a.start - b.start)`. -/
def refLe (a b : AttachmentRef) : Prop := a.start ≤ b.start

instance : DecidableRel refLe := fun a b => Nat.decLe a.start b.start

instance : IsTotal AttachmentRef refLe := ⟨fun a b => Nat.le_total a.start b.start⟩

instance : IsTrans AttachmentRef refLe := ⟨fun _ _ _ => Nat.le_trans⟩

/-- `extractAttachmentRefs`: run the four scans over the full text, merge,
and sort (stably) by start offset. -/
def extractAttachmentRefs (content : Str) : List AttachmentRef :=
  List.insertionSort refLe
    (scanWikiEmbeds content ++ scanWikiLinks content ++
      scanMdEmbeds content ++ scanMdLinks content)

/-- Non-overlap of two half-open spans. -/
def spansDisjoint (a b : AttachmentRef) : Prop :=
  a.stop ≤ b.start ∨ b.stop ≤ a.start

instance : DecidableRel spansDisjoint := fun a b =>
  inferInstanceAs (Decidable (_ ∨ _))

/-- Claim C3 counterexample: on `a [b](c[[d]] e)` a single scan pass returns
a markdown-link span `[2,15)` and a wiki-link span `[7,12)` that overlap, so
the spans of one `extractAttachmentRefs` call are not pairwise
non-overlapping. -/
theorem C3_counterexample :
    ¬ (extractAttachmentRefs "a [b](c[[d]] e)".toList).Pairwise spansDisjoint := by
  decide

/-- Claim C3 (amended): for every input text the reference list returned by
one `extractAttachmentRefs` call is sorted in ascending order of `start`;
the spans are, however, not pairwise non-overlapping in general (a wiki link
inside a markdown-link destination yields nested spans, see the
counterexample). -/
theorem C3_amended_sorted_by_start (content : Str) :
    (extractAttachmentRefs content).Pairwise refLe :=
  List.sorted_insertionSort refLe
    (scanWikiEmbeds content ++ scanWikiLinks content ++
      scanMdEmbeds content ++ scanMdLinks content)

/-! ### External environment and the replacement renderer -/

/-- Rendering method chosen by the MIME table (`mimeType.getMethod`). -/
inductive Method
  | img
  | iframe
  | link
deriving DecidableEq, Repr

/-- The fields of Obsidian's `TFile` used by the conversion. -/
structure VFile where
  path : Str
  name : Str
  basename : Str
  extension : Str
deriving DecidableEq, Repr

inductive LinkMode
  | proxy
  | public
deriving DecidableEq, Repr

structure ConvertAttachmentsOptions where
  dryRun : Bool
  makeBackup : Bool
  linkMode : LinkMode
deriving DecidableEq, Repr

/-- External collaborators as pure oracles: the vault and metadata cache,
the S3 client, and the MIME/method configuration table from settings.
Fallible calls return `Except`; `now` stands in for `Date.now()`. -/
structure Env where
  hasS3 : Bool
  resolve : Str → Str → Option VFile
  readBinary : Str → Except Str (List Nat)
  digestHex : List Nat → Except Str Str
  objectExists : Str → Except Str Bool
  upload : List Nat → Str → Except Str Unit
  createPublicURL : Str → Option Str
  createObjURL : Str → Option Str
  getMIME : Str → Str
  getMethod : Str → Method
  includeEXT : Str → Bool
  now : Nat

/-- `getMethodForFile`: look up the rendering method for the resolved file's
extension. -/
def getMethodForFile (env : Env) (file : VFile) : Method :=
  env.getMethod (env.getMIME file.extension)

/-- `buildReplacement` from convertAttachments. -/
def buildReplacement (env : Env) (ref : AttachmentRef) (url : Str) (resolved : VFile) : Str :=
  let suffix := ref.suffix.getD []
  let urlWithSuffix := url ++ suffix
  match getMethodForFile env resolved with
  | .iframe =>
    "<iframe src=\"".toList ++ urlWithSuffix ++ "\" alt=\"".toList ++ resolved.name ++
      "\" style=\"overflow:hidden;height:400;width:100%\" allowfullscreen></iframe>".toList
  | .img =>
    let alt := if ref.kind = .mdEmbed then ref.label.getD [] else []
    "![".toList ++ alt ++ "](".toList ++ urlWithSuffix ++ ")".toList
  | .link =>
    if ref.kind = .mdLink then
      let label :=
        if (trimStr (ref.label.getD [])).isEmpty then resolved.basename
        else trimStr (ref.label.getD [])
      "[".toList ++ label ++ "](".toList ++ urlWithSuffix ++ ")".toList
    else if ref.kind = .obsidianLink then
      let label :=
        if (trimStr (ref.label.getD [])).isEmpty then resolved.basename
        else trimStr (ref.label.getD [])
      "[".toList ++ label ++ "](".toList ++ urlWithSuffix ++ ")".toList
    else urlWithSuffix

/-- A concrete environment whose MIME table renders `pdf` with the
plain-link method (used by the C6 counterexample). -/
def cexRenderEnv : Env where
  hasS3 := true
  resolve := fun _ _ => none
  readBinary := fun _ => Except.error "unused".toList
  digestHex := fun _ => Except.error "unused".toList
  objectExists := fun _ => Except.error "unused".toList
  upload := fun _ _ => Except.error "unused".toList
  createPublicURL := fun _ => none
  createObjURL := fun _ => none
  getMIME := fun _ => "application/pdf".toList
  getMethod := fun _ => Method.link
  includeEXT := fun e => e = "pdf".toList
  now := 0

def cexRenderRef : AttachmentRef where
  kind := RefKind.mdEmbed
  start := 0
  stop := 18
  raw := "![x](r.pdf#page=2)".toList
  target := "r.pdf".toList
  label := some "x".toList
  suffix := some "#page=2".toList

def cexRenderFile : VFile where
  path := "r.pdf".toList
  name := "r.pdf".toList
  basename := "r".toList
  extension := "pdf".toList

/-- Claim C6 counterexample: a markdown *embed* of a plain-link-method file
(`![x](r.pdf#page=2)`) is replaced by the bare URL with its suffix, not by a
markdown link labelled with the reference's label. -/
theorem C6_counterexample :
    buildReplacement cexRenderEnv cexRenderRef "u".toList cexRenderFile =
        "u#page=2".toList ∧
      buildReplacement cexRenderEnv cexRenderRef "u".toList cexRenderFile ≠
        "[x](u#page=2)".toList := by
  decide

/-- Claim C6 (amended): for a reference whose resolved file renders with the
plain-link method, link-kind references (markdown link, wiki link) become a
markdown link whose label is the reference's label *trimmed* when non-empty
after trimming and otherwise the resolved file's basename, with any captured
fragment/query suffix appended verbatim to the URL; embed-kind references
become the bare URL with the suffix appended. -/
theorem C6_amended_plain_link_rendering (env : Env) (ref : AttachmentRef) (url : Str)
    (resolved : VFile) (hm : getMethodForFile env resolved = Method.link) :
    ((ref.kind = RefKind.mdLink ∨ ref.kind = RefKind.obsidianLink) →
      buildReplacement env ref url resolved =
        "[".toList ++
          (if (trimStr (ref.label.getD [])).isEmpty then resolved.basename
           else trimStr (ref.label.getD [])) ++
          "](".toList ++ (url ++ ref.suffix.getD []) ++ ")".toList) ∧
    ((ref.kind = RefKind.obsidianEmbed ∨ ref.kind = RefKind.mdEmbed) →
      buildReplacement env ref url resolved = url ++ ref.suffix.getD []) := by
  unfold buildReplacement
  rw [hm]
  constructor
  · rintro (hk | hk) <;> simp [hk]
  · rintro (hk | hk) <;> simp [hk]

/-- Witness for the amended C6: a wiki link `[[report.pdf|My Report]]` to a
plain-link-method file becomes `[My Report](u#p)`; a wiki embed of the same
file becomes the bare `u#p`. -/
theorem C6_amended_plain_link_rendering_witness :
    buildReplacement cexRenderEnv
        { kind := RefKind.obsidianLink, start := 0, stop := 24,
          raw := "[[report.pdf|My Report]]".toList, target := "report.pdf".toList,
          label := some "My Report".toList, suffix := some "#p".toList }
        "u".toList cexRenderFile =
      "[".toList ++ "My Report".toList ++ "](".toList ++
        ("u".toList ++ "#p".toList) ++ ")".toList ∧
    buildReplacement cexRenderEnv
        { kind := RefKind.obsidianEmbed, start := 0, stop := 14,
          raw := "![[report.pdf]]".toList, target := "report.pdf".toList,
          label := none, suffix := some "#p".toList }
        "u".toList cexRenderFile =
      "u".toList ++ "#p".toList := by
  refine ⟨?_, ?_⟩
  · have h := C6_amended_plain_link_rendering cexRenderEnv
      { kind := RefKind.obsidianLink, start := 0, stop := 24,
        raw := "[[report.pdf|My Report]]".toList, target := "report.pdf".toList,
        label := some "My Report".toList, suffix := some "#p".toList }
      "u".toList cexRenderFile (by decide)
    have h2 := h.1 (Or.inr rfl)
    rw [h2]
    decide
  · have h := C6_amended_plain_link_rendering cexRenderEnv
      { kind := RefKind.obsidianEmbed, start := 0, stop := 14,
        raw := "![[report.pdf]]".toList, target := "report.pdf".toList,
        label := none, suffix := some "#p".toList }
      "u".toList cexRenderFile (by decide)
    exact h.2 (Or.inl rfl)

/-! ### Orchestrator

`convertAttachments` is embedded as a pure fold over the in-scope notes.
External calls are logged as events; counters that the source mutates inside
the per-file `try` block are applied from the block's outcome, which fixes
the same final report. -/

structure Note where
  path : Str
  content : Str
deriving DecidableEq, Repr

inductive Event
  | resolveCall (target notePath : Str)
  | readCall (filePath : Str)
  | hashCall (filePath : Str)
  | existsCall (filePath fileName : Str)
  | uploadCall (filePath fileName : Str)
  | usedUrl (filePath url : Str)
  | backupNote (notePath : Str)
  | modifyNote (notePath : Str) (newContent : Str)
deriving DecidableEq, Repr

structure ConvertReport where
  notesScanned : Nat
  refsFound : Nat
  refsRemoteSkipped : Nat
  refsUnresolved : Nat
  attachmentsUnsupported : Nat
  uploadsAttempted : Nat
  uploadsSkippedAlreadyExists : Nat
  uploadsSucceeded : Nat
  uploadsFailed : Nat
  notesChanged : Nat
  linksRewritten : Nat
  backupCreated : Nat
  errors : List Str
  previewLines : List Str
deriving DecidableEq, Repr

def emptyReport : ConvertReport where
  notesScanned := 0
  refsFound := 0
  refsRemoteSkipped := 0
  refsUnresolved := 0
  attachmentsUnsupported := 0
  uploadsAttempted := 0
  uploadsSkippedAlreadyExists := 0
  uploadsSucceeded := 0
  uploadsFailed := 0
  notesChanged := 0
  linksRewritten := 0
  backupCreated := 0
  errors := []
  previewLines := []

def unresolvedLine (notePath raw : Str) : Str :=
  "[UNRESOLVED] ".toList ++ notePath ++ ": ".toList ++ raw

def rewriteLine (notePath raw newText : Str) : Str :=
  "[REWRITE] ".toList ++ notePath ++ ": ".toList ++ raw ++ " -> ".toList ++ newText

def urlErrLine (filePath : Str) : Str :=
  "Unable to create target URL for ".toList ++ filePath

def uploadFailedLine (filePath msg : Str) : Str :=
  "Upload failed for ".toList ++ filePath ++ ": ".toList ++ msg

/-- The run-scoped `resolvedUrlByVaultPath` map, keyed by vault path. -/
def lookupCache : List (Str × Str) → Str → Option Str
  | [], _ => none
  | (k, v) :: rest, p => if k = p then some v else lookupCache rest p

/-- JS falsy test `if (!url)` on the cached value: a missing or empty cached
string counts as a miss. -/
def cacheHit : Option Str → Option Str
  | some u => if u.isEmpty then none else some u
  | none => none

/-- `buildTargetUrl`: in public mode ask for a public URL and fall back to
the local proxy URL when it is null or empty. -/
def buildTargetUrl (env : Env) (fileName : Str) (mode : LinkMode) : Option Str :=
  match mode with
  | LinkMode.public =>
    match env.createPublicURL fileName with
    | some u => if u.isEmpty then env.createObjURL fileName else some u
    | none => env.createObjURL fileName
  | LinkMode.proxy => env.createObjURL fileName

/-- Result of the per-file `try` block (read bytes, hash, build URL, check
existence, upload): `gotUrl url existed uploaded` carries which branch was
taken, `urlFailed` is the `!targetUrl` early `continue`, and `threw` is a
caught exception — with `attempted = true` when the throw came from the
upload call itself, since the source bumps `uploadsAttempted` before
uploading. -/
inductive UploadOutcome
  | gotUrl (url : Str) (existed uploaded : Bool)
  | urlFailed
  | threw (msg : Str) (attempted : Bool)
deriving DecidableEq, Repr

/-- The body of the `try` block for one resolved file, with the events of
the external calls it performs. -/
def tryUploadFlow (env : Env) (opts : ConvertAttachmentsOptions) (f : VFile) :
    List Event × UploadOutcome :=
  match env.readBinary f.path with
  | Except.error e => ([Event.readCall f.path], UploadOutcome.threw e false)
  | Except.ok bytes =>
    match env.digestHex bytes with
    | Except.error e =>
      ([Event.readCall f.path, Event.hashCall f.path], UploadOutcome.threw e false)
    | Except.ok hash =>
      let fileName := generateResourceName f.name none (some hash) env.now
      match buildTargetUrl env fileName opts.linkMode with
      | none => ([Event.readCall f.path, Event.hashCall f.path], UploadOutcome.urlFailed)
      | some u =>
        if u.isEmpty then
          ([Event.readCall f.path, Event.hashCall f.path], UploadOutcome.urlFailed)
        else
          match env.objectExists fileName with
          | Except.error e =>
            ([Event.readCall f.path, Event.hashCall f.path,
               Event.existsCall f.path fileName], UploadOutcome.threw e false)
          | Except.ok true =>
            ([Event.readCall f.path, Event.hashCall f.path,
               Event.existsCall f.path fileName], UploadOutcome.gotUrl u true false)
          | Except.ok false =>
            if opts.dryRun then
              ([Event.readCall f.path, Event.hashCall f.path,
                 Event.existsCall f.path fileName], UploadOutcome.gotUrl u false false)
            else
              match env.upload bytes fileName with
              | Except.error e =>
                ([Event.readCall f.path, Event.hashCall f.path,
                   Event.existsCall f.path fileName, Event.uploadCall f.path fileName],
                  UploadOutcome.threw e true)
              | Except.ok _ =>
                ([Event.readCall f.path, Event.hashCall f.path,
                   Event.existsCall f.path fileName, Event.uploadCall f.path fileName],
                  UploadOutcome.gotUrl u false true)

/-- Per-note processing state: the running report, the event log, the
run-scoped URL cache, and the replacements collected for this note. -/
structure PerNoteState where
  report : ConvertReport
  log : List Event
  cache : List (Str × Str)
  repls : List Replacement

/-- Tail of one reference's processing once a URL is available: build the
replacement text and record it when it differs from the raw match. -/
def finishRef (env : Env) (notePath : Str) (s : PerNoteState) (ref : AttachmentRef)
    (f : VFile) (url : Str) (tryEvents : List Event) (cache2 : List (Str × Str)) :
    PerNoteState :=
  let newText := buildReplacement env ref url f
  let log2 := s.log ++ [Event.resolveCall ref.target notePath] ++ tryEvents ++
    [Event.usedUrl f.path url]
  if newText ≠ ref.raw then
    { report := { s.report with
        linksRewritten := s.report.linksRewritten + 1,
        previewLines := s.report.previewLines ++ [rewriteLine notePath ref.raw newText] },
      log := log2, cache := cache2,
      repls := s.repls ++ [{ start := ref.start, stop := ref.stop, newText := newText }] }
  else
    { report := s.report, log := log2, cache := cache2, repls := s.repls }

/-- The defensive re-check `resolved.extension === "md" ||
!mimeType.includeEXT(resolved.extension)` on the resolved file. -/
def unsupportedFile (env : Env) (f : VFile) : Bool :=
  f.extension = "md".toList || !env.includeEXT f.extension

/-- Processing of one candidate reference inside the per-note loop. -/
def processRef (env : Env) (opts : ConvertAttachmentsOptions) (notePath : Str)
    (s : PerNoteState) (ref : AttachmentRef) : PerNoteState :=
  if emptyTargetGuard ref.target then s
  else if isProbablyRemoteLink ref.target then
    { s with report := { s.report with
        refsRemoteSkipped := s.report.refsRemoteSkipped + 1 } }
  else
    match env.resolve ref.target notePath with
    | none =>
      { s with
        report := { s.report with
          refsUnresolved := s.report.refsUnresolved + 1,
          previewLines := s.report.previewLines ++ [unresolvedLine notePath ref.raw] },
        log := s.log ++ [Event.resolveCall ref.target notePath] }
    | some f =>
      if unsupportedFile env f then
        { s with
          report := { s.report with
            attachmentsUnsupported := s.report.attachmentsUnsupported + 1 },
          log := s.log ++ [Event.resolveCall ref.target notePath] }
      else
        match cacheHit (lookupCache s.cache f.path) with
        | some url => finishRef env notePath s ref f url [] s.cache
        | none =>
          match tryUploadFlow env opts f with
          | (evs, UploadOutcome.urlFailed) =>
            { s with
              report := { s.report with
                errors := s.report.errors ++ [urlErrLine f.path] },
              log := s.log ++ [Event.resolveCall ref.target notePath] ++ evs }
          | (evs, UploadOutcome.threw msg attempted) =>
            { s with
              report := { s.report with
                uploadsAttempted :=
                  s.report.uploadsAttempted + (if attempted then 1 else 0),
                uploadsFailed := s.report.uploadsFailed + 1,
                errors := s.report.errors ++ [uploadFailedLine f.path msg] },
              log := s.log ++ [Event.resolveCall ref.target notePath] ++ evs }
          | (evs, UploadOutcome.gotUrl url existed uploaded) =>
            let report1 :=
              if existed then
                { s.report with uploadsSkippedAlreadyExists :=
                    s.report.uploadsSkippedAlreadyExists + 1 }
              else if uploaded then
                { s.report with
                  uploadsAttempted := s.report.uploadsAttempted + 1,
                  uploadsSucceeded := s.report.uploadsSucceeded + 1 }
              else
                { s.report with uploadsAttempted := s.report.uploadsAttempted + 1 }
            finishRef env notePath { s with report := report1 } ref f url evs
              ((f.path, url) :: s.cache)

/-- Run-level state: report, event log and the shared URL cache. -/
structure RunState where
  report : ConvertReport
  log : List Event
  cache : List (Str × Str)

/-- The per-note scan/filter/reference loop: scan the note, keep attachment
candidates, bump `notesScanned`/`refsFound`, and fold `processRef` over the
candidate references. -/
def noteFold (env : Env) (opts : ConvertAttachmentsOptions) (s : RunState)
    (note : Note) : PerNoteState :=
  let refs := (extractAttachmentRefs note.content).filter
    (fun r => isAttachmentCandidate env.includeEXT r.target)
  let report0 := { s.report with
    notesScanned := s.report.notesScanned + 1,
    refsFound := s.report.refsFound + refs.length }
  refs.foldl (processRef env opts note.path)
    { report := report0, log := s.log, cache := s.cache, repls := [] }

/-- Processing of one note: scan, filter candidates, process each reference,
then patch and (outside dry-run) back up and persist (`ensureBackup` then
`vault.modify`, with `backupCreated` and `notesChanged` bumped after each). -/
def processNote (env : Env) (opts : ConvertAttachmentsOptions) (s : RunState)
    (note : Note) : RunState :=
  if (noteFold env opts s note).repls.isEmpty then
    { report := (noteFold env opts s note).report,
      log := (noteFold env opts s note).log,
      cache := (noteFold env opts s note).cache }
  else if opts.dryRun then
    { report := (noteFold env opts s note).report,
      log := (noteFold env opts s note).log,
      cache := (noteFold env opts s note).cache }
  else if opts.makeBackup then
    { report := { (noteFold env opts s note).report with
        backupCreated := (noteFold env opts s note).report.backupCreated + 1,
        notesChanged := (noteFold env opts s note).report.notesChanged + 1 },
      log := (noteFold env opts s note).log ++
        [Event.backupNote note.path,
          Event.modifyNote note.path
            (applyReplacements note.content (noteFold env opts s note).repls)],
      cache := (noteFold env opts s note).cache }
  else
    { report := { (noteFold env opts s note).report with
        notesChanged := (noteFold env opts s note).report.notesChanged + 1 },
      log := (noteFold env opts s note).log ++
        [Event.modifyNote note.path
          (applyReplacements note.content (noteFold env opts s note).repls)],
      cache := (noteFold env opts s note).cache }

/-- `convertAttachments`: configuration checks, then a strictly sequential
fold over the in-scope notes.  The `notes` parameter stands for
`getScopeFiles` (a vault boundary call). -/
def convertAttachments (env : Env) (opts : ConvertAttachmentsOptions)
    (notes : List Note) : RunState :=
  if !env.hasS3 then { report := emptyReport, log := [], cache := [] }
  else if notes.isEmpty then { report := emptyReport, log := [], cache := [] }
  else notes.foldl (processNote env opts) { report := emptyReport, log := [], cache := [] }

/-! ### Event bookkeeping -/

def isUploadEvent : Event → Bool
  | Event.uploadCall _ _ => true
  | _ => false

def isModifyEvent : Event → Bool
  | Event.modifyNote _ _ => true
  | _ => false

def isBackupEvent : Event → Bool
  | Event.backupNote _ => true
  | _ => false

/-- Number of content-hash computations performed for the file at path `p`. -/
def countHashP (log : List Event) (p : Str) : Nat :=
  log.countP (fun e => e = Event.hashCall p)

def isUploadForP (p : Str) : Event → Bool
  | Event.uploadCall fp _ => fp = p
  | _ => false

/-- Number of upload calls performed for the file at path `p`. -/
def countUploadP (log : List Event) (p : Str) : Nat :=
  log.countP (isUploadForP p)

/-- The URLs handed to the replacement renderer for references resolving to
the file at path `p`, in order. -/
def usedUrlsP (log : List Event) (p : Str) : List Str :=
  log.filterMap (fun e =>
    match e with
    | Event.usedUrl fp u => if fp = p then some u else none
    | _ => none)

/-- Exhaustive enumeration of the per-file `try` block's results: which
events it performs and which outcome it reports, in each branch. -/
theorem tryUploadFlow_spec (env : Env) (opts : ConvertAttachmentsOptions) (f : VFile) :
    (∃ msg, tryUploadFlow env opts f =
      ([Event.readCall f.path], UploadOutcome.threw msg false)) ∨
    (∃ msg, tryUploadFlow env opts f =
      ([Event.readCall f.path, Event.hashCall f.path], UploadOutcome.threw msg false)) ∨
    (tryUploadFlow env opts f =
      ([Event.readCall f.path, Event.hashCall f.path], UploadOutcome.urlFailed)) ∨
    (∃ n msg, tryUploadFlow env opts f =
      ([Event.readCall f.path, Event.hashCall f.path, Event.existsCall f.path n],
        UploadOutcome.threw msg false)) ∨
    (∃ n u, tryUploadFlow env opts f =
      ([Event.readCall f.path, Event.hashCall f.path, Event.existsCall f.path n],
        UploadOutcome.gotUrl u true false) ∧ u.isEmpty = false) ∨
    (∃ n u, tryUploadFlow env opts f =
      ([Event.readCall f.path, Event.hashCall f.path, Event.existsCall f.path n],
        UploadOutcome.gotUrl u false false) ∧ u.isEmpty = false ∧ opts.dryRun = true) ∨
    (∃ n msg, tryUploadFlow env opts f =
      ([Event.readCall f.path, Event.hashCall f.path, Event.existsCall f.path n,
         Event.uploadCall f.path n], UploadOutcome.threw msg true) ∧ opts.dryRun = false) ∨
    (∃ n u, tryUploadFlow env opts f =
      ([Event.readCall f.path, Event.hashCall f.path, Event.existsCall f.path n,
         Event.uploadCall f.path n], UploadOutcome.gotUrl u false true) ∧
        u.isEmpty = false ∧ opts.dryRun = false) := by
  unfold tryUploadFlow
  cases hrb : env.readBinary f.path with
  | error e => exact Or.inl ⟨e, rfl⟩
  | ok bytes =>
    cases hdg : env.digestHex bytes with
    | error e => exact Or.inr (Or.inl ⟨e, by simp [hdg]⟩)
    | ok hash =>
      cases hbt : buildTargetUrl env (generateResourceName f.name none (some hash) env.now)
          opts.linkMode with
      | none => exact Or.inr (Or.inr (Or.inl (by simp [hdg, hbt])))
      | some u =>
        cases hue : u.isEmpty with
        | true => exact Or.inr (Or.inr (Or.inl (by simp [hdg, hbt, hue])))
        | false =>
          cases hoe : env.objectExists (generateResourceName f.name none (some hash) env.now) with
          | error e =>
            exact Or.inr (Or.inr (Or.inr (Or.inl
              ⟨generateResourceName f.name none (some hash) env.now, e,
                by simp [hdg, hbt, hue, hoe]⟩)))
          | ok b =>
            cases b with
            | true =>
              exact Or.inr (Or.inr (Or.inr (Or.inr (Or.inl
                ⟨generateResourceName f.name none (some hash) env.now, u,
                  by simp [hdg, hbt, hue, hoe], hue⟩))))
            | false =>
              cases hdr : opts.dryRun with
              | true =>
                exact Or.inr (Or.inr (Or.inr (Or.inr (Or.inr (Or.inl
                  ⟨generateResourceName f.name none (some hash) env.now, u,
                    by simp [hdg, hbt, hue, hoe, hdr], hue, rfl⟩)))))
              | false =>
                cases hup : env.upload bytes (generateResourceName f.name none (some hash)
                    env.now) with
                | error e =>
                  exact Or.inr (Or.inr (Or.inr (Or.inr (Or.inr (Or.inr (Or.inl
                    ⟨generateResourceName f.name none (some hash) env.now, e,
                      by simp [hdg, hbt, hue, hoe, hdr, hup], rfl⟩))))))
                | ok x =>
                  exact Or.inr (Or.inr (Or.inr (Or.inr (Or.inr (Or.inr (Or.inr
                    ⟨generateResourceName f.name none (some hash) env.now, u,
                      by simp [hdg, hbt, hue, hoe, hdr, hup], hue, rfl⟩))))))

/-- A target starting with a non-whitespace, non-empty scheme prefix passes
the empty-target guard. -/
theorem emptyTargetGuard_false_of_schemePref (p t : Str) (hp : ∀ c ∈ p, wsChar c = false)
    (hne : p ≠ []) (h : startsWithStr p t = true) :
    emptyTargetGuard t = false := by
  have ht : t.isEmpty = false := by
    obtain ⟨r, rfl⟩ := (startsWithStr_iff p t).mp h
    cases p with
    | nil => exact absurd rfl hne
    | cons _ _ => rfl
  have htr : (trimStr t).isEmpty = false := by
    have h2 := startsWith_trimStr p t hp h
    obtain ⟨r2, he⟩ := (startsWithStr_iff p (trimStr t)).mp h2
    rw [he]
    cases p with
    | nil => exact absurd rfl hne
    | cons _ _ => rfl
  unfold emptyTargetGuard
  rw [ht, htr]
  rfl

/-- Claim C4 (amended, remote-skip): a reference reaching the per-reference
loop — i.e. one that survived the `isAttachmentCandidate` filter — whose
target begins with `http://`, `https://`, `data:`, `mailto:`, or `file:` is
handled by bumping the `refsRemoteSkipped` counter and nothing else: no
event is logged (so the resolver is never called and the file is never read,
hashed or uploaded for this reference), and the cache, replacement list and
all other report fields are unchanged.  Scanned remote-target references
that the candidate filter drops are never counted (see the
counterexample). -/
theorem C4_remote_skip (env : Env) (opts : ConvertAttachmentsOptions) (notePath : Str)
    (s : PerNoteState) (ref : AttachmentRef)
    (hrem : startsWithStr "http://".toList ref.target = true ∨
      startsWithStr "https://".toList ref.target = true ∨
      startsWithStr "data:".toList ref.target = true ∨
      startsWithStr "mailto:".toList ref.target = true ∨
      startsWithStr "file:".toList ref.target = true) :
    processRef env opts notePath s ref =
      { s with report := { s.report with
          refsRemoteSkipped := s.report.refsRemoteSkipped + 1 } } := by
  have hguard : emptyTargetGuard ref.target = false := by
    rcases hrem with h | h | h | h | h
    · exact emptyTargetGuard_false_of_schemePref _ _ (by decide) (by decide) h
    · exact emptyTargetGuard_false_of_schemePref _ _ (by decide) (by decide) h
    · exact emptyTargetGuard_false_of_schemePref _ _ (by decide) (by decide) h
    · exact emptyTargetGuard_false_of_schemePref _ _ (by decide) (by decide) h
    · exact emptyTargetGuard_false_of_schemePref _ _ (by decide) (by decide) h
  have hremote : isProbablyRemoteLink ref.target = true := by
    unfold isProbablyRemoteLink
    simp only [Bool.or_eq_true]
    rcases hrem with h | h | h | h | h
    · exact Or.inl (Or.inl (Or.inl (Or.inl (startsWith_trimStr _ ref.target (by decide) h))))
    · exact Or.inl (Or.inl (Or.inl (Or.inr (startsWith_trimStr _ ref.target (by decide) h))))
    · exact Or.inl (Or.inl (Or.inr (startsWith_trimStr _ ref.target (by decide) h)))
    · exact Or.inl (Or.inr (startsWith_trimStr _ ref.target (by decide) h))
    · exact Or.inr (startsWith_trimStr _ ref.target (by decide) h)
  unfold processRef
  rw [hguard, hremote]
  simp

/-- Witness for C4: a reference to `http://x.com/a.png` in an empty starting
state is counted as remote-skipped and produces no events. -/
theorem C4_remote_skip_witness :
    processRef cexRenderEnv
        { dryRun := false, makeBackup := false, linkMode := LinkMode.proxy }
        "n.md".toList
        { report := emptyReport, log := [], cache := [], repls := [] }
        { kind := RefKind.mdLink, start := 0, stop := 28,
          raw := "[x](http://x.com/a.png)".toList, target := "http://x.com/a.png".toList,
          label := some "x".toList, suffix := none } =
      { report := { emptyReport with refsRemoteSkipped := emptyReport.refsRemoteSkipped + 1 },
        log := [], cache := [], repls := [] } :=
  C4_remote_skip cexRenderEnv
    { dryRun := false, makeBackup := false, linkMode := LinkMode.proxy }
    "n.md".toList
    { report := emptyReport, log := [], cache := [], repls := [] }
    { kind := RefKind.mdLink, start := 0, stop := 28,
      raw := "[x](http://x.com/a.png)".toList, target := "http://x.com/a.png".toList,
      label := some "x".toList, suffix := none }
    (Or.inl (by decide))

/-- Claim C7 (upload-failure atomicity): when hashing or uploading throws
for a resolved, supported, not-yet-cached file, the exception is caught at
the reference: `uploadsFailed` is incremented, the error string
`Upload failed for <path>: <msg>` naming the file's identity is appended,
the events are only the resolver call and the calls made before the throw,
and the cache and the collected replacement list are unchanged — so this
reference's span is left unmodified in the text later persisted and the fold
continues with the next reference.  (`uploadsAttempted` was already bumped
before the upload call, so it ends incremented exactly when the throw came
from the upload itself, i.e. `attempted = true`.) -/
theorem C7_upload_failure_atomicity (env : Env) (opts : ConvertAttachmentsOptions)
    (notePath : Str) (s : PerNoteState) (ref : AttachmentRef) (f : VFile)
    (evs : List Event) (msg : Str) (attempted : Bool)
    (hg : emptyTargetGuard ref.target = false)
    (hrem : isProbablyRemoteLink ref.target = false)
    (hres : env.resolve ref.target notePath = some f)
    (hsupp : unsupportedFile env f = false)
    (hmiss : cacheHit (lookupCache s.cache f.path) = none)
    (hthrew : tryUploadFlow env opts f = (evs, UploadOutcome.threw msg attempted)) :
    processRef env opts notePath s ref =
      { s with
        report := { s.report with
          uploadsAttempted := s.report.uploadsAttempted + (if attempted then 1 else 0),
          uploadsFailed := s.report.uploadsFailed + 1,
          errors := s.report.errors ++ [uploadFailedLine f.path msg] },
        log := s.log ++ [Event.resolveCall ref.target notePath] ++ evs } := by
  unfold processRef
  rw [hg, hrem, hres]
  simp only [hsupp, hmiss, hthrew]
  simp

/-- Witness for C7: a run state and environment where the upload throws
`boom`; the reference is left without a replacement and the failure is
counted and logged. -/
theorem C7_upload_failure_atomicity_witness :
    processRef
        { cexRenderEnv with
            resolve := fun _ _ => some cexRenderFile,
            readBinary := fun _ => Except.ok [1, 2],
            digestHex := fun _ => Except.ok "abc".toList,
            objectExists := fun _ => Except.ok false,
            upload := fun _ _ => Except.error "boom".toList,
            createObjURL := fun n => some ("http://localhost:4998/".toList ++ n) }
        { dryRun := false, makeBackup := false, linkMode := LinkMode.proxy }
        "n.md".toList
        { report := emptyReport, log := [], cache := [], repls := [] }
        { kind := RefKind.mdLink, start := 0, stop := 12,
          raw := "[x](r.pdf)".toList, target := "r.pdf".toList,
          label := some "x".toList, suffix := none } =
      { report := { emptyReport with
          uploadsAttempted := emptyReport.uploadsAttempted + 1,
          uploadsFailed := emptyReport.uploadsFailed + 1,
          errors := emptyReport.errors ++
            [uploadFailedLine cexRenderFile.path "boom".toList] },
        log := [] ++ [Event.resolveCall "r.pdf".toList "n.md".toList] ++
          [Event.readCall cexRenderFile.path, Event.hashCall cexRenderFile.path,
            Event.existsCall cexRenderFile.path "r-abc.pdf".toList,
            Event.uploadCall cexRenderFile.path "r-abc.pdf".toList],
        cache := [], repls := [] } :=
  C7_upload_failure_atomicity
    { cexRenderEnv with
        resolve := fun _ _ => some cexRenderFile,
        readBinary := fun _ => Except.ok [1, 2],
        digestHex := fun _ => Except.ok "abc".toList,
        objectExists := fun _ => Except.ok false,
        upload := fun _ _ => Except.error "boom".toList,
        createObjURL := fun n => some ("http://localhost:4998/".toList ++ n) }
    { dryRun := false, makeBackup := false, linkMode := LinkMode.proxy }
    "n.md".toList
    { report := emptyReport, log := [], cache := [], repls := [] }
    { kind := RefKind.mdLink, start := 0, stop := 12,
      raw := "[x](r.pdf)".toList, target := "r.pdf".toList,
      label := some "x".toList, suffix := none }
    cexRenderFile
    [Event.readCall cexRenderFile.path, Event.hashCall cexRenderFile.path,
      Event.existsCall cexRenderFile.path "r-abc.pdf".toList,
      Event.uploadCall cexRenderFile.path "r-abc.pdf".toList]
    "boom".toList true
    (by decide) (by decide) (by decide) (by decide) (by decide) (by decide)

/-! ### finishRef projections -/

theorem finishRef_log (env : Env) (notePath : Str) (s : PerNoteState)
    (ref : AttachmentRef) (f : VFile) (url : Str) (tryEvents : List Event)
    (cache2 : List (Str × Str)) :
    (finishRef env notePath s ref f url tryEvents cache2).log =
      s.log ++ [Event.resolveCall ref.target notePath] ++ tryEvents ++
        [Event.usedUrl f.path url] := by
  by_cases h : buildReplacement env ref url f ≠ ref.raw <;> simp [finishRef, h]

theorem finishRef_cache (env : Env) (notePath : Str) (s : PerNoteState)
    (ref : AttachmentRef) (f : VFile) (url : Str) (tryEvents : List Event)
    (cache2 : List (Str × Str)) :
    (finishRef env notePath s ref f url tryEvents cache2).cache = cache2 := by
  by_cases h : buildReplacement env ref url f ≠ ref.raw <;> simp [finishRef, h]

theorem finishRef_notesChanged (env : Env) (notePath : Str) (s : PerNoteState)
    (ref : AttachmentRef) (f : VFile) (url : Str) (tryEvents : List Event)
    (cache2 : List (Str × Str)) :
    (finishRef env notePath s ref f url tryEvents cache2).report.notesChanged =
      s.report.notesChanged := by
  by_cases h : buildReplacement env ref url f ≠ ref.raw <;> simp [finishRef, h]

theorem finishRef_backupCreated (env : Env) (notePath : Str) (s : PerNoteState)
    (ref : AttachmentRef) (f : VFile) (url : Str) (tryEvents : List Event)
    (cache2 : List (Str × Str)) :
    (finishRef env notePath s ref f url tryEvents cache2).report.backupCreated =
      s.report.backupCreated := by
  by_cases h : buildReplacement env ref url f ≠ ref.raw <;> simp [finishRef, h]

theorem finishRef_uploadsAttempted (env : Env) (notePath : Str) (s : PerNoteState)
    (ref : AttachmentRef) (f : VFile) (url : Str) (tryEvents : List Event)
    (cache2 : List (Str × Str)) :
    (finishRef env notePath s ref f url tryEvents cache2).report.uploadsAttempted =
      s.report.uploadsAttempted := by
  by_cases h : buildReplacement env ref url f ≠ ref.raw <;> simp [finishRef, h]

/-! ### Dry-run frame lemmas -/

theorem tryUploadFlow_dry_no_upload (env : Env) (opts : ConvertAttachmentsOptions)
    (f : VFile) (hdry : opts.dryRun = true) :
    ∀ e ∈ (tryUploadFlow env opts f).1, isUploadEvent e = false := by
  rcases tryUploadFlow_spec env opts f with
    ⟨m, h⟩ | ⟨m, h⟩ | h | ⟨n, m, h⟩ | ⟨n, u, h, -⟩ | ⟨n, u, h, -, -⟩ |
    ⟨n, m, h, hd⟩ | ⟨n, u, h, -, hd⟩
  · simp [h, isUploadEvent]
  · simp [h, isUploadEvent]
  · simp [h, isUploadEvent]
  · simp [h, isUploadEvent]
  · simp [h, isUploadEvent]
  · simp [h, isUploadEvent]
  · rw [hd] at hdry; cases hdry
  · rw [hd] at hdry; cases hdry

theorem tryUploadFlow_no_modify_backup (env : Env) (opts : ConvertAttachmentsOptions)
    (f : VFile) :
    ∀ e ∈ (tryUploadFlow env opts f).1,
      isModifyEvent e = false ∧ isBackupEvent e = false := by
  rcases tryUploadFlow_spec env opts f with
    ⟨m, h⟩ | ⟨m, h⟩ | h | ⟨n, m, h⟩ | ⟨n, u, h, -⟩ | ⟨n, u, h, -, -⟩ |
    ⟨n, m, h, -⟩ | ⟨n, u, h, -, -⟩ <;>
    simp [h, isModifyEvent, isBackupEvent]

/-! ### processRef branch equations -/

theorem processRef_guard (env : Env) (opts : ConvertAttachmentsOptions)
    (notePath : Str) (s : PerNoteState) (ref : AttachmentRef)
    (hg : emptyTargetGuard ref.target = true) :
    processRef env opts notePath s ref = s := by
  unfold processRef
  rw [hg]
  simp

theorem processRef_remote (env : Env) (opts : ConvertAttachmentsOptions)
    (notePath : Str) (s : PerNoteState) (ref : AttachmentRef)
    (hg : emptyTargetGuard ref.target = false)
    (hrm : isProbablyRemoteLink ref.target = true) :
    processRef env opts notePath s ref =
      { s with report := { s.report with
          refsRemoteSkipped := s.report.refsRemoteSkipped + 1 } } := by
  unfold processRef
  rw [hg, hrm]
  simp

theorem processRef_unresolved (env : Env) (opts : ConvertAttachmentsOptions)
    (notePath : Str) (s : PerNoteState) (ref : AttachmentRef)
    (hg : emptyTargetGuard ref.target = false)
    (hrm : isProbablyRemoteLink ref.target = false)
    (hres : env.resolve ref.target notePath = none) :
    processRef env opts notePath s ref =
      { s with
        report := { s.report with
          refsUnresolved := s.report.refsUnresolved + 1,
          previewLines := s.report.previewLines ++ [unresolvedLine notePath ref.raw] },
        log := s.log ++ [Event.resolveCall ref.target notePath] } := by
  unfold processRef
  rw [hg, hrm, hres]
  simp

theorem processRef_unsupported (env : Env) (opts : ConvertAttachmentsOptions)
    (notePath : Str) (s : PerNoteState) (ref : AttachmentRef) (f : VFile)
    (hg : emptyTargetGuard ref.target = false)
    (hrm : isProbablyRemoteLink ref.target = false)
    (hres : env.resolve ref.target notePath = some f)
    (hsupp : unsupportedFile env f = true) :
    processRef env opts notePath s ref =
      { s with
        report := { s.report with
          attachmentsUnsupported := s.report.attachmentsUnsupported + 1 },
        log := s.log ++ [Event.resolveCall ref.target notePath] } := by
  unfold processRef
  rw [hg, hrm, hres]
  simp [hsupp]

theorem processRef_cacheHit (env : Env) (opts : ConvertAttachmentsOptions)
    (notePath : Str) (s : PerNoteState) (ref : AttachmentRef) (f : VFile) (url : Str)
    (hg : emptyTargetGuard ref.target = false)
    (hrm : isProbablyRemoteLink ref.target = false)
    (hres : env.resolve ref.target notePath = some f)
    (hsupp : unsupportedFile env f = false)
    (hch : cacheHit (lookupCache s.cache f.path) = some url) :
    processRef env opts notePath s ref = finishRef env notePath s ref f url [] s.cache := by
  unfold processRef
  rw [hg, hrm, hres]
  simp [hsupp, hch]

theorem processRef_urlFailed (env : Env) (opts : ConvertAttachmentsOptions)
    (notePath : Str) (s : PerNoteState) (ref : AttachmentRef) (f : VFile)
    (evs : List Event)
    (hg : emptyTargetGuard ref.target = false)
    (hrm : isProbablyRemoteLink ref.target = false)
    (hres : env.resolve ref.target notePath = some f)
    (hsupp : unsupportedFile env f = false)
    (hch : cacheHit (lookupCache s.cache f.path) = none)
    (htf : tryUploadFlow env opts f = (evs, UploadOutcome.urlFailed)) :
    processRef env opts notePath s ref =
      { s with
        report := { s.report with errors := s.report.errors ++ [urlErrLine f.path] },
        log := s.log ++ [Event.resolveCall ref.target notePath] ++ evs } := by
  unfold processRef
  rw [hg, hrm, hres]
  simp [hsupp, hch, htf]

theorem processRef_threw (env : Env) (opts : ConvertAttachmentsOptions)
    (notePath : Str) (s : PerNoteState) (ref : AttachmentRef) (f : VFile)
    (evs : List Event) (msg : Str) (attempted : Bool)
    (hg : emptyTargetGuard ref.target = false)
    (hrm : isProbablyRemoteLink ref.target = false)
    (hres : env.resolve ref.target notePath = some f)
    (hsupp : unsupportedFile env f = false)
    (hch : cacheHit (lookupCache s.cache f.path) = none)
    (htf : tryUploadFlow env opts f = (evs, UploadOutcome.threw msg attempted)) :
    processRef env opts notePath s ref =
      { s with
        report := { s.report with
          uploadsAttempted := s.report.uploadsAttempted + (if attempted then 1 else 0),
          uploadsFailed := s.report.uploadsFailed + 1,
          errors := s.report.errors ++ [uploadFailedLine f.path msg] },
        log := s.log ++ [Event.resolveCall ref.target notePath] ++ evs } := by
  unfold processRef
  rw [hg, hrm, hres]
  simp [hsupp, hch, htf]

theorem processRef_gotUrl (env : Env) (opts : ConvertAttachmentsOptions)
    (notePath : Str) (s : PerNoteState) (ref : AttachmentRef) (f : VFile)
    (evs : List Event) (url : Str) (existed uploaded : Bool)
    (hg : emptyTargetGuard ref.target = false)
    (hrm : isProbablyRemoteLink ref.target = false)
    (hres : env.resolve ref.target notePath = some f)
    (hsupp : unsupportedFile env f = false)
    (hch : cacheHit (lookupCache s.cache f.path) = none)
    (htf : tryUploadFlow env opts f = (evs, UploadOutcome.gotUrl url existed uploaded)) :
    processRef env opts notePath s ref =
      finishRef env notePath
        { s with report :=
            if existed then
              { s.report with uploadsSkippedAlreadyExists :=
                  s.report.uploadsSkippedAlreadyExists + 1 }
            else if uploaded then
              { s.report with
                uploadsAttempted := s.report.uploadsAttempted + 1,
                uploadsSucceeded := s.report.uploadsSucceeded + 1 }
            else
              { s.report with uploadsAttempted := s.report.uploadsAttempted + 1 } }
        ref f url evs ((f.path, url) :: s.cache) := by
  unfold processRef
  rw [hg, hrm, hres]
  simp [hsupp, hch, htf]

/-! ### Dry-run frame -/

/-- In dry-run mode one reference's processing appends only events that are
not uploads, not note modifications and not backups, and leaves the
`notesChanged` and `backupCreated` counters untouched. -/
theorem processRef_dry_frame (env : Env) (opts : ConvertAttachmentsOptions)
    (notePath : Str) (s : PerNoteState) (ref : AttachmentRef)
    (hdry : opts.dryRun = true) :
    ∃ evs, (processRef env opts notePath s ref).log = s.log ++ evs ∧
      (∀ e ∈ evs, isUploadEvent e = false ∧ isModifyEvent e = false ∧
        isBackupEvent e = false) ∧
      (processRef env opts notePath s ref).report.notesChanged =
        s.report.notesChanged ∧
      (processRef env opts notePath s ref).report.backupCreated =
        s.report.backupCreated := by
  cases hg : emptyTargetGuard ref.target with
  | true =>
    rw [processRef_guard env opts notePath s ref hg]
    exact ⟨[], by simp⟩
  | false =>
  cases hrm : isProbablyRemoteLink ref.target with
  | true =>
    rw [processRef_remote env opts notePath s ref hg hrm]
    exact ⟨[], by simp⟩
  | false =>
  cases hres : env.resolve ref.target notePath with
  | none =>
    rw [processRef_unresolved env opts notePath s ref hg hrm hres]
    exact ⟨[Event.resolveCall ref.target notePath],
      by simp [isUploadEvent, isModifyEvent, isBackupEvent]⟩
  | some f =>
  cases hsupp : unsupportedFile env f with
  | true =>
    rw [processRef_unsupported env opts notePath s ref f hg hrm hres hsupp]
    exact ⟨[Event.resolveCall ref.target notePath],
      by simp [isUploadEvent, isModifyEvent, isBackupEvent]⟩
  | false =>
  cases hch : cacheHit (lookupCache s.cache f.path) with
  | some url =>
    rw [processRef_cacheHit env opts notePath s ref f url hg hrm hres hsupp hch]
    refine ⟨[Event.resolveCall ref.target notePath, Event.usedUrl f.path url],
      ?_, ?_, ?_, ?_⟩
    · rw [finishRef_log]
      simp
    · simp [isUploadEvent, isModifyEvent, isBackupEvent]
    · rw [finishRef_notesChanged]
    · rw [finishRef_backupCreated]
  | none =>
  rcases htf : tryUploadFlow env opts f with ⟨evs2, out⟩
  have hnu : ∀ e ∈ evs2, isUploadEvent e = false := by
    have h1 := tryUploadFlow_dry_no_upload env opts f hdry
    rw [htf] at h1
    exact h1
  have hnmb : ∀ e ∈ evs2, isModifyEvent e = false ∧ isBackupEvent e = false := by
    have h1 := tryUploadFlow_no_modify_backup env opts f
    rw [htf] at h1
    exact h1
  cases out with
  | urlFailed =>
    rw [processRef_urlFailed env opts notePath s ref f evs2 hg hrm hres hsupp hch htf]
    refine ⟨[Event.resolveCall ref.target notePath] ++ evs2, by simp, ?_, rfl, rfl⟩
    intro e he
    rcases List.mem_append.mp he with h1 | h1
    · simp at h1
      simp [h1, isUploadEvent, isModifyEvent, isBackupEvent]
    · exact ⟨hnu e h1, hnmb e h1⟩
  | threw msg attempted =>
    rw [processRef_threw env opts notePath s ref f evs2 msg attempted hg hrm hres hsupp hch htf]
    refine ⟨[Event.resolveCall ref.target notePath] ++ evs2, by simp, ?_, rfl, rfl⟩
    intro e he
    rcases List.mem_append.mp he with h1 | h1
    · simp at h1
      simp [h1, isUploadEvent, isModifyEvent, isBackupEvent]
    · exact ⟨hnu e h1, hnmb e h1⟩
  | gotUrl url existed uploaded =>
    rw [processRef_gotUrl env opts notePath s ref f evs2 url existed uploaded
      hg hrm hres hsupp hch htf]
    refine ⟨[Event.resolveCall ref.target notePath] ++ evs2 ++
      [Event.usedUrl f.path url], ?_, ?_, ?_, ?_⟩
    · rw [finishRef_log]
      simp
    · intro e he
      rcases List.mem_append.mp he with h1 | h1
      · rcases List.mem_append.mp h1 with h2 | h2
        · simp at h2
          simp [h2, isUploadEvent, isModifyEvent, isBackupEvent]
        · exact ⟨hnu e h2, hnmb e h2⟩
      · simp at h1
        simp [h1, isUploadEvent, isModifyEvent, isBackupEvent]
    · rw [finishRef_notesChanged]
      cases existed <;> cases uploaded <;> rfl
    · rw [finishRef_backupCreated]
      cases existed <;> cases uploaded <;> rfl

theorem foldl_processRef_dry_frame (env : Env) (opts : ConvertAttachmentsOptions)
    (notePath : Str) (hdry : opts.dryRun = true) :
    ∀ (refs : List AttachmentRef) (s : PerNoteState),
      ∃ evs, (refs.foldl (processRef env opts notePath) s).log = s.log ++ evs ∧
        (∀ e ∈ evs, isUploadEvent e = false ∧ isModifyEvent e = false ∧
          isBackupEvent e = false) ∧
        (refs.foldl (processRef env opts notePath) s).report.notesChanged =
          s.report.notesChanged ∧
        (refs.foldl (processRef env opts notePath) s).report.backupCreated =
          s.report.backupCreated := by
  intro refs
  induction refs with
  | nil => exact fun s => ⟨[], by simp, by simp, rfl, rfl⟩
  | cons r rest ih =>
    intro s
    obtain ⟨evs1, h1, h2, h3, h4⟩ := processRef_dry_frame env opts notePath s r hdry
    obtain ⟨evs2, g1, g2, g3, g4⟩ := ih (processRef env opts notePath s r)
    refine ⟨evs1 ++ evs2, ?_, ?_, ?_, ?_⟩
    · rw [List.foldl_cons, g1, h1, List.append_assoc]
    · intro e he
      rcases List.mem_append.mp he with h | h
      · exact h2 e h
      · exact g2 e h
    · rw [List.foldl_cons, g3, h3]
    · rw [List.foldl_cons, g4, h4]

theorem noteFold_dry_frame (env : Env) (opts : ConvertAttachmentsOptions)
    (s : RunState) (note : Note) (hdry : opts.dryRun = true) :
    ∃ evs, (noteFold env opts s note).log = s.log ++ evs ∧
      (∀ e ∈ evs, isUploadEvent e = false ∧ isModifyEvent e = false ∧
        isBackupEvent e = false) ∧
      (noteFold env opts s note).report.notesChanged = s.report.notesChanged ∧
      (noteFold env opts s note).report.backupCreated = s.report.backupCreated := by
  unfold noteFold
  obtain ⟨evs, h1, h2, h3, h4⟩ := foldl_processRef_dry_frame env opts note.path hdry
    ((extractAttachmentRefs note.content).filter
      (fun r => isAttachmentCandidate env.includeEXT r.target))
    { report := { s.report with
        notesScanned := s.report.notesScanned + 1,
        refsFound := s.report.refsFound + ((extractAttachmentRefs note.content).filter
          (fun r => isAttachmentCandidate env.includeEXT r.target)).length },
      log := s.log, cache := s.cache, repls := [] }
  exact ⟨evs, h1, h2, h3, h4⟩

/-- In dry-run mode `processNote` neither backs up nor persists: its result
is exactly the reference-loop state. -/
theorem processNote_dry_eq (env : Env) (opts : ConvertAttachmentsOptions)
    (s : RunState) (note : Note) (hdry : opts.dryRun = true) :
    processNote env opts s note =
      { report := (noteFold env opts s note).report,
        log := (noteFold env opts s note).log,
        cache := (noteFold env opts s note).cache } := by
  unfold processNote
  rw [hdry]
  simp

theorem foldl_processNote_dry_frame (env : Env) (opts : ConvertAttachmentsOptions)
    (hdry : opts.dryRun = true) :
    ∀ (notes : List Note) (s : RunState),
      ∃ evs, (notes.foldl (processNote env opts) s).log = s.log ++ evs ∧
        (∀ e ∈ evs, isUploadEvent e = false ∧ isModifyEvent e = false ∧
          isBackupEvent e = false) ∧
        (notes.foldl (processNote env opts) s).report.notesChanged =
          s.report.notesChanged ∧
        (notes.foldl (processNote env opts) s).report.backupCreated =
          s.report.backupCreated := by
  intro notes
  induction notes with
  | nil => exact fun s => ⟨[], by simp, by simp, rfl, rfl⟩
  | cons note rest ih =>
    intro s
    obtain ⟨evs1, h1, h2, h3, h4⟩ := noteFold_dry_frame env opts s note hdry
    obtain ⟨evs2, g1, g2, g3, g4⟩ := ih (processNote env opts s note)
    refine ⟨evs1 ++ evs2, ?_, ?_, ?_, ?_⟩
    · rw [List.foldl_cons, g1, processNote_dry_eq env opts s note hdry]
      show (noteFold env opts s note).log ++ evs2 = s.log ++ (evs1 ++ evs2)
      rw [h1, List.append_assoc]
    · intro e he
      rcases List.mem_append.mp he with h | h
      · exact h2 e h
      · exact g2 e h
    · rw [List.foldl_cons, g3, processNote_dry_eq env opts s note hdry]
      exact h3
    · rw [List.foldl_cons, g4, processNote_dry_eq env opts s note hdry]
      exact h4

/-- Claim C8 (dry-run frame): with the dry-run flag set the run makes no
upload call, writes no document text and creates no backup (its event log
contains no such event, and `notesChanged` and `backupCreated` are 0),
while for a resolved, supported, not-yet-cached reference whose object does
not yet exist the `uploadsAttempted` counter is still incremented and the
would-be URL is still computed and handed to the rewrite logic. -/
theorem C8_dry_run_frame (env : Env) (opts : ConvertAttachmentsOptions)
    (notes : List Note) (hdry : opts.dryRun = true) :
    (∀ e ∈ (convertAttachments env opts notes).log,
      isUploadEvent e = false ∧ isModifyEvent e = false ∧ isBackupEvent e = false) ∧
    (convertAttachments env opts notes).report.notesChanged = 0 ∧
    (convertAttachments env opts notes).report.backupCreated = 0 ∧
    (∀ (s : PerNoteState) (notePath : Str) (ref : AttachmentRef) (f : VFile) (n u : Str),
      emptyTargetGuard ref.target = false →
      isProbablyRemoteLink ref.target = false →
      env.resolve ref.target notePath = some f →
      unsupportedFile env f = false →
      cacheHit (lookupCache s.cache f.path) = none →
      tryUploadFlow env opts f =
        ([Event.readCall f.path, Event.hashCall f.path, Event.existsCall f.path n],
          UploadOutcome.gotUrl u false false) →
      (processRef env opts notePath s ref).report.uploadsAttempted =
          s.report.uploadsAttempted + 1 ∧
        Event.usedUrl f.path u ∈ (processRef env opts notePath s ref).log) := by
  have hstep : ∀ (s : PerNoteState) (notePath : Str) (ref : AttachmentRef) (f : VFile)
      (n u : Str),
      emptyTargetGuard ref.target = false →
      isProbablyRemoteLink ref.target = false →
      env.resolve ref.target notePath = some f →
      unsupportedFile env f = false →
      cacheHit (lookupCache s.cache f.path) = none →
      tryUploadFlow env opts f =
        ([Event.readCall f.path, Event.hashCall f.path, Event.existsCall f.path n],
          UploadOutcome.gotUrl u false false) →
      (processRef env opts notePath s ref).report.uploadsAttempted =
          s.report.uploadsAttempted + 1 ∧
        Event.usedUrl f.path u ∈ (processRef env opts notePath s ref).log := by
    intro s notePath ref f n u hg hrm hres hsupp hch htf
    rw [processRef_gotUrl env opts notePath s ref f _ u false false hg hrm hres hsupp hch htf]
    constructor
    · rw [finishRef_uploadsAttempted]
      simp
    · rw [finishRef_log]
      simp
  have hmain : (∀ e ∈ (convertAttachments env opts notes).log,
      isUploadEvent e = false ∧ isModifyEvent e = false ∧ isBackupEvent e = false) ∧
      (convertAttachments env opts notes).report.notesChanged = 0 ∧
      (convertAttachments env opts notes).report.backupCreated = 0 := by
    cases hs3 : env.hasS3 with
    | false => refine ⟨?_, ?_, ?_⟩ <;> simp [convertAttachments, hs3, emptyReport]
    | true =>
      cases hne : notes.isEmpty with
      | true => refine ⟨?_, ?_, ?_⟩ <;> simp [convertAttachments, hs3, hne, emptyReport]
      | false =>
        have hconv : convertAttachments env opts notes =
            notes.foldl (processNote env opts)
              { report := emptyReport, log := [], cache := [] } := by
          unfold convertAttachments
          rw [hs3, hne]
          simp
        obtain ⟨evs, h1, h2, h3, h4⟩ := foldl_processNote_dry_frame env opts hdry notes
          { report := emptyReport, log := [], cache := [] }
        rw [hconv]
        refine ⟨?_, h3, h4⟩
        rw [h1]
        simpa using h2
  exact ⟨hmain.1, hmain.2.1, hmain.2.2, hstep⟩

def happyFile : VFile where
  path := "photo.png".toList
  name := "photo.png".toList
  basename := "photo".toList
  extension := "png".toList

/-- A fully succeeding environment with one resolvable file, `photo.png`. -/
def happyEnv : Env where
  hasS3 := true
  resolve := fun t _ => if t = "photo.png".toList then some happyFile else none
  readBinary := fun _ => Except.ok [1, 2, 3]
  digestHex := fun _ => Except.ok "abc".toList
  objectExists := fun _ => Except.ok false
  upload := fun _ _ => Except.ok ()
  createPublicURL := fun _ => none
  createObjURL := fun n => some ("http://localhost:4998/".toList ++ n)
  getMIME := fun _ => "image/png".toList
  getMethod := fun _ => Method.img
  includeEXT := fun e => e = "png".toList
  now := 0

def happyNote : Note where
  path := "n.md".toList
  content := "hi ![[photo.png]] end".toList

def dryOpts : ConvertAttachmentsOptions where
  dryRun := true
  makeBackup := true
  linkMode := LinkMode.proxy

/-- Witness for C8: a concrete dry run over one rewritable reference. -/
theorem C8_dry_run_frame_witness :
    (convertAttachments happyEnv dryOpts [happyNote]).report.notesChanged = 0 ∧
    (convertAttachments happyEnv dryOpts [happyNote]).report.backupCreated = 0 ∧
    (∀ e ∈ (convertAttachments happyEnv dryOpts [happyNote]).log,
      isUploadEvent e = false ∧ isModifyEvent e = false ∧ isBackupEvent e = false) := by
  have h := C8_dry_run_frame happyEnv dryOpts [happyNote] rfl
  exact ⟨h.2.1, h.2.2.1, h.1⟩

/-! ### Upload dedup (C2) -/

/-- All upload-pipeline operations succeed for every file the resolver can
return at path `p` (reading, hashing, URL construction, existence check and
upload all return without throwing). -/
def uploadAlwaysSucceedsAt (env : Env) (opts : ConvertAttachmentsOptions) (p : Str) : Prop :=
  ∀ t np f, env.resolve t np = some f → f.path = p →
    ∃ u ex up, (tryUploadFlow env opts f).2 = UploadOutcome.gotUrl u ex up

/-- The run invariant behind the dedup cache: either the path was never
processed (no cache entry, no hash, no upload, no URL use), or it is cached
with a non-empty URL, at most one hash and upload happened, and every use
received the cached URL. -/
def dedupInv (p : Str) (cache : List (Str × Str)) (log : List Event) : Prop :=
  (cacheHit (lookupCache cache p) = none ∧ countHashP log p = 0 ∧
    countUploadP log p = 0 ∧ usedUrlsP log p = []) ∨
  (∃ u, cacheHit (lookupCache cache p) = some u ∧ countHashP log p ≤ 1 ∧
    countUploadP log p ≤ 1 ∧ ∀ v ∈ usedUrlsP log p, v = u)

theorem countHashP_append (l1 l2 : List Event) (p : Str) :
    countHashP (l1 ++ l2) p = countHashP l1 p + countHashP l2 p :=
  List.countP_append _ _ _

theorem countUploadP_append (l1 l2 : List Event) (p : Str) :
    countUploadP (l1 ++ l2) p = countUploadP l1 p + countUploadP l2 p :=
  List.countP_append _ _ _

theorem usedUrlsP_append (l1 l2 : List Event) (p : Str) :
    usedUrlsP (l1 ++ l2) p = usedUrlsP l1 p ++ usedUrlsP l2 p :=
  List.filterMap_append _ _ _

/-- `dedupInv` survives appending events that do not hash, upload or use a
URL for `p`, and any cache change that preserves the entry at `p`. -/
theorem dedupInv_extend (p : Str) (cache cache' : List (Str × Str))
    (log evs : List Event) (h : dedupInv p cache log)
    (hc : lookupCache cache' p = lookupCache cache p)
    (hh : countHashP evs p = 0) (hu : countUploadP evs p = 0)
    (hus : usedUrlsP evs p = []) :
    dedupInv p cache' (log ++ evs) := by
  unfold dedupInv at h ⊢
  rw [hc, countHashP_append, countUploadP_append, usedUrlsP_append, hh, hu, hus]
  simpa using h

theorem tryUploadFlow_counts_self (env : Env) (opts : ConvertAttachmentsOptions)
    (f : VFile) :
    countHashP (tryUploadFlow env opts f).1 f.path ≤ 1 ∧
    countUploadP (tryUploadFlow env opts f).1 f.path ≤ 1 ∧
    usedUrlsP (tryUploadFlow env opts f).1 f.path = [] := by
  rcases tryUploadFlow_spec env opts f with
    ⟨m, h⟩ | ⟨m, h⟩ | h | ⟨n, m, h⟩ | ⟨n, u, h, -⟩ | ⟨n, u, h, -, -⟩ |
    ⟨n, m, h, -⟩ | ⟨n, u, h, -, -⟩ <;>
    simp [h, countHashP, countUploadP, usedUrlsP, isUploadForP,
      List.countP_cons, List.countP_nil]

theorem tryUploadFlow_counts_other (env : Env) (opts : ConvertAttachmentsOptions)
    (f : VFile) (p : Str) (hne : ¬ f.path = p) :
    countHashP (tryUploadFlow env opts f).1 p = 0 ∧
    countUploadP (tryUploadFlow env opts f).1 p = 0 ∧
    usedUrlsP (tryUploadFlow env opts f).1 p = [] := by
  rcases tryUploadFlow_spec env opts f with
    ⟨m, h⟩ | ⟨m, h⟩ | h | ⟨n, m, h⟩ | ⟨n, u, h, -⟩ | ⟨n, u, h, -, -⟩ |
    ⟨n, m, h, -⟩ | ⟨n, u, h, -, -⟩ <;>
    simp [h, countHashP, countUploadP, usedUrlsP, isUploadForP,
      List.countP_cons, List.countP_nil, hne]

theorem tryUploadFlow_gotUrl_nonempty (env : Env) (opts : ConvertAttachmentsOptions)
    (f : VFile) (url : Str) (ex up : Bool)
    (h : (tryUploadFlow env opts f).2 = UploadOutcome.gotUrl url ex up) :
    url.isEmpty = false := by
  rcases tryUploadFlow_spec env opts f with
    ⟨m, h2⟩ | ⟨m, h2⟩ | h2 | ⟨n, m, h2⟩ | ⟨n, u, h2, hu⟩ | ⟨n, u, h2, hu, -⟩ |
    ⟨n, m, h2, -⟩ | ⟨n, u, h2, hu, -⟩
  · rw [h2] at h; simp at h
  · rw [h2] at h; simp at h
  · rw [h2] at h; simp at h
  · rw [h2] at h; simp at h
  · rw [h2] at h
    injection h with ha hb hc
    rw [← ha]
    exact hu
  · rw [h2] at h
    injection h with ha hb hc
    rw [← ha]
    exact hu
  · rw [h2] at h; simp at h
  · rw [h2] at h
    injection h with ha hb hc
    rw [← ha]
    exact hu

/-- One reference's processing preserves the dedup invariant, provided the
upload pipeline cannot fail for files at path `p`. -/
theorem processRef_dedupInv (env : Env) (opts : ConvertAttachmentsOptions)
    (notePath : Str) (p : Str) (hsucc : uploadAlwaysSucceedsAt env opts p)
    (s : PerNoteState) (ref : AttachmentRef)
    (hinv : dedupInv p s.cache s.log) :
    dedupInv p (processRef env opts notePath s ref).cache
      (processRef env opts notePath s ref).log := by
  cases hg : emptyTargetGuard ref.target with
  | true => rw [processRef_guard env opts notePath s ref hg]; exact hinv
  | false =>
  cases hrm : isProbablyRemoteLink ref.target with
  | true => rw [processRef_remote env opts notePath s ref hg hrm]; exact hinv
  | false =>
  cases hres : env.resolve ref.target notePath with
  | none =>
    rw [processRef_unresolved env opts notePath s ref hg hrm hres]
    exact dedupInv_extend p s.cache s.cache s.log [Event.resolveCall ref.target notePath]
      hinv rfl (by simp [countHashP]) (by simp [countUploadP, isUploadForP])
      (by simp [usedUrlsP])
  | some f =>
  cases hsupp : unsupportedFile env f with
  | true =>
    rw [processRef_unsupported env opts notePath s ref f hg hrm hres hsupp]
    exact dedupInv_extend p s.cache s.cache s.log [Event.resolveCall ref.target notePath]
      hinv rfl (by simp [countHashP]) (by simp [countUploadP, isUploadForP])
      (by simp [usedUrlsP])
  | false =>
  cases hch : cacheHit (lookupCache s.cache f.path) with
  | some url =>
    rw [processRef_cacheHit env opts notePath s ref f url hg hrm hres hsupp hch]
    rw [finishRef_cache, finishRef_log]
    by_cases hfp : f.path = p
    · subst hfp
      rcases hinv with ⟨hnone, -, -, -⟩ | ⟨u, hu, hh1, hu1, hus1⟩
      · rw [hch] at hnone; cases hnone
      · rw [hch] at hu
        injection hu with huu
        right
        refine ⟨u, by rw [hch, huu], ?_, ?_, ?_⟩
        · rw [countHashP_append, countHashP_append, countHashP_append]
          simpa [countHashP] using hh1
        · rw [countUploadP_append, countUploadP_append, countUploadP_append]
          simpa [countUploadP, isUploadForP] using hu1
        · rw [usedUrlsP_append, usedUrlsP_append, usedUrlsP_append]
          have h1 : usedUrlsP [Event.resolveCall ref.target notePath] f.path = [] := by
            simp [usedUrlsP]
          have h0 : usedUrlsP ([] : List Event) f.path = [] := by simp [usedUrlsP]
          have h2 : usedUrlsP [Event.usedUrl f.path url] f.path = [url] := by
            simp [usedUrlsP]
          rw [h1, h0, h2]
          intro v hv
          simp only [List.append_nil, List.mem_append] at hv
          rcases hv with hv | hv
          · exact hus1 v hv
          · simp at hv
            rw [hv]
            exact huu
    · have hassoc : s.log ++ [Event.resolveCall ref.target notePath] ++ [] ++
          [Event.usedUrl f.path url] =
          s.log ++ ([Event.resolveCall ref.target notePath] ++
            [Event.usedUrl f.path url]) := by simp
      rw [hassoc]
      exact dedupInv_extend p s.cache s.cache s.log _ hinv rfl
        (by simp [countHashP]) (by simp [countUploadP, isUploadForP])
        (by simp [usedUrlsP, hfp])
  | none =>
  rcases htf : tryUploadFlow env opts f with ⟨evs2, out⟩
  by_cases hfp : f.path = p
  · cases out with
    | urlFailed =>
      exfalso
      obtain ⟨u0, ex0, up0, hout⟩ := hsucc ref.target notePath f hres hfp
      rw [htf] at hout
      simp at hout
    | threw m att =>
      exfalso
      obtain ⟨u0, ex0, up0, hout⟩ := hsucc ref.target notePath f hres hfp
      rw [htf] at hout
      simp at hout
    | gotUrl url existed uploaded =>
      subst hfp
      rw [processRef_gotUrl env opts notePath s ref f evs2 url existed uploaded
        hg hrm hres hsupp hch htf]
      rw [finishRef_cache, finishRef_log]
      rcases hinv with ⟨-, hh0, hu0, hus0⟩ | ⟨u, hu, -, -, -⟩
      swap
      · rw [hch] at hu; cases hu
      have hne : url.isEmpty = false :=
        tryUploadFlow_gotUrl_nonempty env opts f url existed uploaded (by rw [htf])
      have hc := tryUploadFlow_counts_self env opts f
      rw [htf] at hc
      right
      refine ⟨url, ?_, ?_, ?_, ?_⟩
      · simp [lookupCache, cacheHit, hne]
      · rw [countHashP_append, countHashP_append, countHashP_append, hh0]
        have h1 : countHashP [Event.resolveCall ref.target notePath] f.path = 0 := by
          simp [countHashP]
        have h2 : countHashP [Event.usedUrl f.path url] f.path = 0 := by
          simp [countHashP]
        rw [h1, h2]
        simpa using hc.1
      · rw [countUploadP_append, countUploadP_append, countUploadP_append, hu0]
        have h1 : countUploadP [Event.resolveCall ref.target notePath] f.path = 0 := by
          simp [countUploadP, isUploadForP]
        have h2 : countUploadP [Event.usedUrl f.path url] f.path = 0 := by
          simp [countUploadP, isUploadForP]
        rw [h1, h2]
        simpa using hc.2.1
      · rw [usedUrlsP_append, usedUrlsP_append, usedUrlsP_append, hus0, hc.2.2]
        have h1 : usedUrlsP [Event.resolveCall ref.target notePath] f.path = [] := by
          simp [usedUrlsP]
        have h2 : usedUrlsP [Event.usedUrl f.path url] f.path = [url] := by
          simp [usedUrlsP]
        rw [h1, h2]
        simp
  · have ho := tryUploadFlow_counts_other env opts f p hfp
    rw [htf] at ho
    cases out with
    | urlFailed =>
      rw [processRef_urlFailed env opts notePath s ref f evs2 hg hrm hres hsupp hch htf]
      have hassoc : s.log ++ [Event.resolveCall ref.target notePath] ++ evs2 =
          s.log ++ ([Event.resolveCall ref.target notePath] ++ evs2) := by simp
      rw [hassoc]
      refine dedupInv_extend p s.cache s.cache s.log _ hinv rfl ?_ ?_ ?_
      · rw [countHashP_append, ho.1]
        simp [countHashP]
      · rw [countUploadP_append, ho.2.1]
        simp [countUploadP, isUploadForP]
      · rw [usedUrlsP_append, ho.2.2]
        simp [usedUrlsP]
    | threw m att =>
      rw [processRef_threw env opts notePath s ref f evs2 m att hg hrm hres hsupp hch htf]
      have hassoc : s.log ++ [Event.resolveCall ref.target notePath] ++ evs2 =
          s.log ++ ([Event.resolveCall ref.target notePath] ++ evs2) := by simp
      rw [hassoc]
      refine dedupInv_extend p s.cache s.cache s.log _ hinv rfl ?_ ?_ ?_
      · rw [countHashP_append, ho.1]
        simp [countHashP]
      · rw [countUploadP_append, ho.2.1]
        simp [countUploadP, isUploadForP]
      · rw [usedUrlsP_append, ho.2.2]
        simp [usedUrlsP]
    | gotUrl url existed uploaded =>
      rw [processRef_gotUrl env opts notePath s ref f evs2 url existed uploaded
        hg hrm hres hsupp hch htf]
      rw [finishRef_cache, finishRef_log]
      have hassoc : s.log ++ [Event.resolveCall ref.target notePath] ++ evs2 ++
          [Event.usedUrl f.path url] =
          s.log ++ ([Event.resolveCall ref.target notePath] ++ evs2 ++
            [Event.usedUrl f.path url]) := by simp
      rw [hassoc]
      refine dedupInv_extend p s.cache ((f.path, url) :: s.cache) s.log _ hinv ?_ ?_ ?_ ?_
      · simp [lookupCache, hfp]
      · rw [countHashP_append, countHashP_append, ho.1]
        simp [countHashP]
      · rw [countUploadP_append, countUploadP_append, ho.2.1]
        simp [countUploadP, isUploadForP]
      · rw [usedUrlsP_append, usedUrlsP_append, ho.2.2]
        simp [usedUrlsP, hfp]

theorem foldl_processRef_dedupInv (env : Env) (opts : ConvertAttachmentsOptions)
    (notePath : Str) (p : Str) (hsucc : uploadAlwaysSucceedsAt env opts p) :
    ∀ (refs : List AttachmentRef) (s : PerNoteState),
      dedupInv p s.cache s.log →
      dedupInv p ((refs.foldl (processRef env opts notePath) s)).cache
        ((refs.foldl (processRef env opts notePath) s)).log := by
  intro refs
  induction refs with
  | nil => exact fun s h => h
  | cons r rest ih =>
    intro s h
    rw [List.foldl_cons]
    exact ih (processRef env opts notePath s r)
      (processRef_dedupInv env opts notePath p hsucc s r h)

theorem noteFold_dedupInv (env : Env) (opts : ConvertAttachmentsOptions)
    (p : Str) (hsucc : uploadAlwaysSucceedsAt env opts p)
    (s : RunState) (note : Note) (hinv : dedupInv p s.cache s.log) :
    dedupInv p (noteFold env opts s note).cache (noteFold env opts s note).log := by
  unfold noteFold
  exact foldl_processRef_dedupInv env opts note.path p hsucc _ _ hinv

/-- After the reference loop, `processNote` only appends backup/modify
events and does not touch the cache. -/
theorem processNote_tail (env : Env) (opts : ConvertAttachmentsOptions)
    (s : RunState) (note : Note) :
    (processNote env opts s note).cache = (noteFold env opts s note).cache ∧
    ∃ evs, (processNote env opts s note).log = (noteFold env opts s note).log ++ evs ∧
      ∀ e ∈ evs, isBackupEvent e = true ∨ isModifyEvent e = true := by
  unfold processNote
  cases hre : (noteFold env opts s note).repls.isEmpty with
  | true => exact ⟨by simp, [], by simp, by simp⟩
  | false =>
  cases hdr : opts.dryRun with
  | true => exact ⟨by simp, [], by simp, by simp⟩
  | false =>
  cases hmb : opts.makeBackup with
  | true =>
    refine ⟨by simp, [Event.backupNote note.path,
      Event.modifyNote note.path
        (applyReplacements note.content (noteFold env opts s note).repls)],
      by simp, ?_⟩
    simp [isBackupEvent, isModifyEvent]
  | false =>
    refine ⟨by simp, [Event.modifyNote note.path
      (applyReplacements note.content (noteFold env opts s note).repls)],
      by simp, ?_⟩
    simp [isModifyEvent]

theorem processNote_dedupInv (env : Env) (opts : ConvertAttachmentsOptions)
    (p : Str) (hsucc : uploadAlwaysSucceedsAt env opts p)
    (s : RunState) (note : Note) (hinv : dedupInv p s.cache s.log) :
    dedupInv p (processNote env opts s note).cache (processNote env opts s note).log := by
  obtain ⟨hc, evs, hl, hev⟩ := processNote_tail env opts s note
  rw [hc, hl]
  refine dedupInv_extend p (noteFold env opts s note).cache (noteFold env opts s note).cache
    (noteFold env opts s note).log evs
    (noteFold_dedupInv env opts p hsucc s note hinv) rfl ?_ ?_ ?_
  · unfold countHashP
    rw [List.countP_eq_zero]
    intro e he
    rcases hev e he with h | h <;> cases e <;> simp_all [isBackupEvent, isModifyEvent]
  · unfold countUploadP
    rw [List.countP_eq_zero]
    intro e he
    rcases hev e he with h | h <;> cases e <;>
      simp_all [isBackupEvent, isModifyEvent, isUploadForP]
  · unfold usedUrlsP
    rw [List.filterMap_eq_nil_iff]
    intro e he
    rcases hev e he with h | h <;> cases e <;> simp_all [isBackupEvent, isModifyEvent]

theorem foldl_processNote_dedupInv (env : Env) (opts : ConvertAttachmentsOptions)
    (p : Str) (hsucc : uploadAlwaysSucceedsAt env opts p) :
    ∀ (notes : List Note) (s : RunState),
      dedupInv p s.cache s.log →
      dedupInv p ((notes.foldl (processNote env opts) s)).cache
        ((notes.foldl (processNote env opts) s)).log := by
  intro notes
  induction notes with
  | nil => exact fun s h => h
  | cons note rest ih =>
    intro s h
    rw [List.foldl_cons]
    exact ih (processNote env opts s note)
      (processNote_dedupInv env opts p hsucc s note h)

theorem convertAttachments_dedupInv (env : Env) (opts : ConvertAttachmentsOptions)
    (notes : List Note) (p : Str) (hsucc : uploadAlwaysSucceedsAt env opts p) :
    dedupInv p (convertAttachments env opts notes).cache
      (convertAttachments env opts notes).log := by
  have hempty : dedupInv p ([] : List (Str × Str)) ([] : List Event) :=
    Or.inl ⟨rfl, rfl, rfl, rfl⟩
  unfold convertAttachments
  cases hs3 : env.hasS3 with
  | false => simpa using hempty
  | true =>
    cases hne : notes.isEmpty with
    | true => simpa using hempty
    | false =>
      simpa using foldl_processNote_dedupInv env opts p hsucc notes
        { report := emptyReport, log := [], cache := [] } hempty

def failFile : VFile where
  path := "a.png".toList
  name := "a.png".toList
  basename := "a".toList
  extension := "png".toList

/-- Like `happyEnv`, but the upload call always throws. -/
def failEnv : Env :=
  { happyEnv with
    resolve := fun t _ => if t = "a.png".toList then some failFile else none,
    upload := fun _ _ => Except.error "boom".toList }

def wetOpts : ConvertAttachmentsOptions where
  dryRun := false
  makeBackup := false
  linkMode := LinkMode.proxy

def failNote : Note where
  path := "n.md".toList
  content := "![[a.png]] ![[a.png]]".toList

/-- Claim C2 counterexample: when the first upload of `a.png` throws, the
cache is not populated and the second reference to the same file hashes the
file again — two hash computations for one file in one run, contradicting
the unconditional at-most-one claim. -/
theorem C2_counterexample :
    countHashP (convertAttachments failEnv wetOpts [failNote]).log "a.png".toList = 2 := by
  decide

/-- Claim C2 (amended): within one run, for every storage path `p` whose
files the upload pipeline can process without failure, at most one
content-hash computation and at most one upload call happen for `p`
(identified by resolved storage path, not by the written target string), and
every reference resolving to `p` receives the same URL from the run-scoped
cache.  (When an attempt for the file fails, the cache is not populated and
a later reference to the same file retries, hashing again — see the
counterexample.) -/
theorem C2_amended_dedup (env : Env) (opts : ConvertAttachmentsOptions)
    (notes : List Note) (p : Str) (hsucc : uploadAlwaysSucceedsAt env opts p) :
    countHashP (convertAttachments env opts notes).log p ≤ 1 ∧
    countUploadP (convertAttachments env opts notes).log p ≤ 1 ∧
    (∀ u1 u2, u1 ∈ usedUrlsP (convertAttachments env opts notes).log p →
      u2 ∈ usedUrlsP (convertAttachments env opts notes).log p → u1 = u2) := by
  rcases convertAttachments_dedupInv env opts notes p hsucc with
    ⟨-, hh, hu, hus⟩ | ⟨u, -, hh, hu, hus⟩
  · refine ⟨by omega, by omega, ?_⟩
    intro u1 u2 h1 _
    rw [hus] at h1
    cases h1
  · exact ⟨hh, hu, fun u1 u2 h1 h2 => (hus u1 h1).trans (hus u2 h2).symm⟩

def remoteNote : Note where
  path := "r.md".toList
  content := "[x](https://example.com/page)".toList

/-- Claim C4 counterexample: `[x](https://example.com/page)` is scanned and
its target begins with `https://`, but the candidate filter drops it (no
extension), so the run never counts it in `refsRemoteSkipped`. -/
theorem C4_counterexample :
    (∃ r ∈ extractAttachmentRefs remoteNote.content,
      startsWithStr "https://".toList r.target = true) ∧
    (convertAttachments happyEnv wetOpts [remoteNote]).report.refsRemoteSkipped = 0 := by
  decide

def happyNote2 : Note where
  path := "m.md".toList
  content := "also ![[photo.png]] here".toList

/-- Witness for the amended C2: two notes referencing the same file in a
fully succeeding run — at most one hash, one upload, one URL. -/
theorem C2_amended_dedup_witness :
    countHashP (convertAttachments happyEnv wetOpts [happyNote, happyNote2]).log
        "photo.png".toList ≤ 1 ∧
    countUploadP (convertAttachments happyEnv wetOpts [happyNote, happyNote2]).log
        "photo.png".toList ≤ 1 ∧
    (∀ u1 u2,
      u1 ∈ usedUrlsP (convertAttachments happyEnv wetOpts [happyNote, happyNote2]).log
        "photo.png".toList →
      u2 ∈ usedUrlsP (convertAttachments happyEnv wetOpts [happyNote, happyNote2]).log
        "photo.png".toList → u1 = u2) := by
  have hsucc : uploadAlwaysSucceedsAt happyEnv wetOpts "photo.png".toList := by
    intro t np f hres hfp
    have hres2 : (if t = "photo.png".toList then some happyFile else none) = some f := hres
    by_cases ht : t = "photo.png".toList
    · rw [if_pos ht] at hres2
      injection hres2 with hf
      refine ⟨"http://localhost:4998/photo-abc.png".toList, false, true, ?_⟩
      rw [← hf]
      decide
    · rw [if_neg ht] at hres2
      cases hres2
  exact C2_amended_dedup happyEnv wetOpts [happyNote, happyNote2] "photo.png".toList hsucc

end S3Conv
